import Mathlib

/-!
Verification development for the price-bot repository.

The definitions below are a shallow embedding of the TypeScript sources:

* `src/core/match.ts`  — title filtering, effective-price computation and
  `filterMatches`;
* `src/core/state.ts`  — the seen-listing store (`markSeen`,
  `cleanupOldSoldItems`);
* `src/run.ts`         — the per-product reconciliation loops of `main`
  (de-dupe / price-drop, state update, sold tracking), `calculateMarketStats`,
  and the end-of-run persistence.

Modelling conventions:

* JS numbers are modelled as exact rationals (`Rat`); `NaN` has no
  counterpart and is not modelled.
* JS objects used as string-keyed dictionaries are modelled as association
  lists (`SeenMap`); property update keeps the position of an existing key and
  appends a new one, and iteration over `Object.entries` is modelled by
  mapping over the list, which is value-equivalent.
* The JS regular-expression engine is an external component: functions that
  consult it take a parameter `rx : String → String → Bool`, where
  `rx pat text` stands for the compiled test of the pattern string `pat`
  (including the implicit case-insensitive flag added by `parseRegex`)
  against `text`, returning `false` when compilation fails.
* `Array.prototype.sort` with the comparator `(a, b) => a.x - b.x` is a
  stable ascending sort; any stable comparison sort computes the same list,
  so it is modelled with insertion sort, which is stable.
* `new Date(s).getTime()` and `Date.now()` are modelled by a parameter
  `parseTime : String → Int` and an input `nowMs : Int` (milliseconds).
* Truthiness tests on optional strings (`if (entry.soldAt)`,
  `if (existing?.firstSeenAt)`) are modelled by `truthyStr`: a string is
  truthy when present and nonempty.
-/

namespace PriceBot

/-- Marketplace identifiers, from `src/types.ts`. -/
inductive MarketplaceId where
  | ebay
  | reverb
  | amazon
deriving DecidableEq

/-- Money record from `src/types.ts`: amount, ISO currency, and the optional
shipping `known` flag. -/
structure Money where
  amount : Rat
  currency : String
  known : Option Bool := none
deriving DecidableEq

/-- Normalized listing from `src/types.ts`. -/
structure Listing where
  source : MarketplaceId
  sourceId : String
  url : String
  title : String
  price : Money
  shipping : Option Money := none
  imageUrl : Option String := none
  condition : Option String := none
  location : Option String := none
  listedAt : Option String := none
deriving DecidableEq

/-- Product rule from `src/types.ts`. Optional term lists are modelled as
plain lists (the code applies `?? []`). -/
structure ProductConfig where
  id : String
  name : String
  minPriceUsd : Option Rat := none
  maxPriceUsd : Rat
  marketplaces : List MarketplaceId
  includeTerms : List String := []
  excludeTerms : List String := []
deriving DecidableEq

/-- Global settings from `src/types.ts`. -/
structure Settings where
  currency : String := "USD"
  includeShippingInThreshold : Bool
  maxResultsPerMarketplace : Nat := 50
  requestDelayMs : Nat := 0
  maxEmbedsPerDiscordMessage : Nat := 10
  maxListingsPerProductPerRun : Nat := 25
deriving DecidableEq

/-- Watchlist configuration from `src/types.ts`. -/
structure WatchlistConfig where
  products : List ProductConfig := []
  settings : Settings
deriving DecidableEq

/-- Price-drop record attached to a match (`Match.priceDrop` in
`src/types.ts`). -/
structure PriceDropInfo where
  previousPrice : Rat
  dropAmount : Rat
deriving DecidableEq

/-- Match record from `src/types.ts`. -/
structure MatchE where
  productId : String
  productName : String
  maxPriceUsd : Rat
  listing : Listing
  effectivePriceUsd : Rat
  shippingNote : Option String := none
  priceDrop : Option PriceDropInfo := none
deriving DecidableEq

/-- Persisted per-listing lifecycle entry from `src/types.ts`. -/
structure SeenEntry where
  firstSeenAt : String
  lastSeenAt : String
  lastEffectivePrice : Rat
  url : String
  title : String
  missedRuns : Option Nat := none
  soldAt : Option String := none
deriving DecidableEq

/-- Key of the nested `state.seen[market][productId][listingId]` dictionary. -/
abbrev SeenKey := MarketplaceId × String × String

/-- The `state.seen` nested dictionaries, flattened to an association list
keyed by marketplace × productId × listingId. -/
abbrev SeenMap := List (SeenKey × SeenEntry)

/-! ### String utilities

`norm` in `src/core/match.ts` is
`s.toLowerCase().replace(/\s+/g, ' ').trim()`.  It is modelled on character
lists with ASCII case mapping; the JS `\s` class is modelled by the four
common whitespace characters, which covers every string the repository
manipulates. -/

/-- Whitespace test standing for the JS `\s` character class. -/
def isWsChar (c : Char) : Bool :=
  c = ' ' ∨ c = '\t' ∨ c = '\n' ∨ c = '\r'

/-- Splits a character list into maximal whitespace-free words. -/
def wordsAux (cur : List Char) : List Char → List (List Char)
  | [] => if cur.isEmpty then [] else [cur.reverse]
  | c :: cs =>
    if isWsChar c then
      if cur.isEmpty then wordsAux [] cs else cur.reverse :: wordsAux [] cs
    else wordsAux (c :: cur) cs

/-- Lowercase, collapse whitespace runs to single spaces, and trim:
the `norm` helper of `src/core/match.ts`. -/
def normE (s : String) : String :=
  String.mk (List.intercalate [' '] (wordsAux [] (s.data.map Char.toLower)))

/-- Helper for `containsStr`: does `needle` occur as a contiguous run of
`haystack`? -/
def containsAux (needle : List Char) : List Char → Bool
  | [] => needle.isEmpty
  | c :: rest => needle.isPrefixOf (c :: rest) || containsAux needle rest

/-- Case-sensitive substring test standing for
`String.prototype.includes`. -/
def containsStr (haystack needle : String) : Bool :=
  containsAux needle.data haystack.data

/-- Uppercase map standing for `String.prototype.toUpperCase` (ASCII). -/
def upperStr (s : String) : String :=
  String.mk (s.data.map Char.toUpper)

/-! ### `src/core/match.ts` -/

/-- Built-in exclusion terms (`DEFAULT_EXCLUDES`). -/
def DEFAULT_EXCLUDES : List String :=
  ["deck saver", "decksaver", "overlay", "template", "manual", "knob",
   "stand", "parts", "repair", "broken", "for parts", "power supply",
   "adapter"]

/-- Regex flag characters accepted by `isRegexPattern`. -/
def flagChar (c : Char) : Bool :=
  c = 'g' ∨ c = 'i' ∨ c = 'm' ∨ c = 's' ∨ c = 'u' ∨ c = 'y'

/-- JS line terminators, which `.` does not match. -/
def lineTermChar (c : Char) : Bool :=
  c = '\n' ∨ c = '\r' ∨ c.toNat = 0x2028 ∨ c.toNat = 0x2029

/-- Helper for `isRegexPattern`: does the character list decompose as
`body ++ '/' :: flags` with `body` free of line terminators and `flags`
made of regex flag characters? -/
def regexTailOk : List Char → Bool
  | [] => false
  | c :: rest =>
    (c = '/' && rest.all flagChar) || (!lineTermChar c && regexTailOk rest)

/-- The `isRegexPattern` test of `src/core/match.ts`:
`/^\/.*\/[gimsuy]*$/.test(term)`. -/
def isRegexPattern (term : String) : Bool :=
  match term.data with
  | '/' :: rest => regexTailOk rest
  | _ => false

/-- The `matchesTerm` helper of `src/core/match.ts`.  `rx` is the external
regex engine (see the module header); the literal branch is a
case-insensitive substring search via `normE`. -/
def matchesTerm (rx : String → String → Bool) (text term : String) : Bool :=
  if isRegexPattern term then rx term text
  else containsStr text (normE term)

/-- Order-preserving first-occurrence deduplication, standing for
`Array.from(new Set(xs))`. -/
def dedupAux (seen : List String) : List String → List String
  | [] => []
  | x :: xs =>
    if seen.contains x then dedupAux seen xs
    else x :: dedupAux (x :: seen) xs

/-- First-occurrence deduplication of a string list. -/
def dedupFirst (xs : List String) : List String := dedupAux [] xs

/-- The accessory words of the secondary heuristic in `titlePasses`
(`src/core/match.ts`, `accessoryWords`). -/
def accessoryWords : List String :=
  ["case", "cover", "deck", "decksaver", "overlay", "template"]

/-- The `titlePasses` function of `src/core/match.ts`. -/
def titlePasses (rx : String → String → Bool) (product : ProductConfig)
    (title : String) : Bool :=
  let t := normE title
  let includeTerms := product.includeTerms.filter (fun s => s ≠ "")
  let excludeTerms :=
    (dedupFirst (product.excludeTerms ++ DEFAULT_EXCLUDES)).filter
      (fun s => s ≠ "")
  if includeTerms ≠ [] ∧ ¬ includeTerms.any (fun term => matchesTerm rx t term)
  then false
  else if excludeTerms.any (fun term => term ≠ "" && matchesTerm rx t term)
  then false
  else if accessoryWords.any (fun w => containsStr t w) &&
      !containsStr t "roland"
  then false
  else true

/-- Result record of `computeEffectivePriceUsd`. -/
structure EffectivePriceResult where
  effective : Rat
  shippingNote : Option String := none
deriving DecidableEq

/-- The `computeEffectivePriceUsd` function of `src/core/match.ts`. -/
def computeEffectivePriceUsd (l : Listing) (cfg : WatchlistConfig) :
    EffectivePriceResult :=
  let price := l.price.amount
  if !cfg.settings.includeShippingInThreshold then { effective := price }
  else
    let ship := l.shipping.map Money.amount
    let shipKnown := (l.shipping.bind Money.known ≠ some false) ∧ ship.isSome
    if ¬ shipKnown then
      { effective := price,
        shippingNote := some "Shipping unknown (verify on listing)" }
    else { effective := price + ship.getD 0 }

/-- Comparison used to sort matches: ascending effective price, the
comparator `(a, b) => a.effectivePriceUsd - b.effectivePriceUsd`. -/
def matchLe (a b : MatchE) : Prop := a.effectivePriceUsd ≤ b.effectivePriceUsd

instance : DecidableRel matchLe := fun a b =>
  inferInstanceAs (Decidable (a.effectivePriceUsd ≤ b.effectivePriceUsd))

instance : IsTotal MatchE matchLe :=
  ⟨fun a b => le_total a.effectivePriceUsd b.effectivePriceUsd⟩

instance : IsTrans MatchE matchLe :=
  ⟨fun _ _ _ h h' => le_trans h h'⟩

/-- One iteration of the `filterMatches` loop: the `continue` conditions of
`src/core/match.ts` in source order, yielding the pushed `Match` when the
listing survives. -/
def listingMatchOf (rx : String → String → Bool) (product : ProductConfig)
    (cfg : WatchlistConfig) (l : Listing) : Option MatchE :=
  if ¬ titlePasses rx product l.title then none
  else if normE l.price.currency ≠ "usd" then none
  else if (match product.minPriceUsd with
      | some minP =>
        decide ((computeEffectivePriceUsd l cfg).effective < minP)
      | none => false) then
    none
  else if (computeEffectivePriceUsd l cfg).effective ≤ product.maxPriceUsd then
    some { productId := product.id, productName := product.name,
           maxPriceUsd := product.maxPriceUsd, listing := l,
           effectivePriceUsd := (computeEffectivePriceUsd l cfg).effective,
           shippingNote := (computeEffectivePriceUsd l cfg).shippingNote }
  else none

/-- The `filterMatches` function of `src/core/match.ts`: keep qualifying
listings, then sort ascending by effective price. -/
def filterMatches (rx : String → String → Bool) (product : ProductConfig)
    (listings : List Listing) (cfg : WatchlistConfig) : List MatchE :=
  List.insertionSort matchLe (listings.filterMap (listingMatchOf rx product cfg))

/-! ### `src/core/state.ts`: the seen-listing store -/

/-- Lookup of `state.seen[market][productId][listingId]`. -/
def seenLookup : SeenMap → SeenKey → Option SeenEntry
  | [], _ => none
  | kv :: rest, k => if kv.1 = k then some kv.2 else seenLookup rest k

/-- Assignment `state.seen[market][productId][listingId] = entry`
(the write inside `markSeen`): replace an existing binding in place, append
a new one. -/
def seenInsert (s : SeenMap) (k : SeenKey) (e : SeenEntry) : SeenMap :=
  match s with
  | [] => [(k, e)]
  | kv :: rest =>
    if kv.1 = k then (k, e) :: rest else kv :: seenInsert rest k e

/-- Truthiness of an optional string field (`if (entry.soldAt)`): present
and nonempty. -/
def truthyStr : Option String → Bool
  | none => false
  | some s => s ≠ ""

/-- Retention window, `SOLD_RETENTION_DAYS = 5` in `src/core/state.ts`,
as a cutoff offset in milliseconds. -/
def SOLD_RETENTION_MS : Int := 5 * 24 * 60 * 60 * 1000

/-- The `cleanupOldSoldItems` function of `src/core/state.ts`: delete every
entry whose truthy `soldAt` parses to a time before `nowMs` minus the
retention window; also return the number of removed entries. -/
def cleanupOldSoldItems (parseTime : String → Int) (nowMs : Int)
    (s : SeenMap) : SeenMap × Nat :=
  let cutoff := nowMs - SOLD_RETENTION_MS
  let keep := fun (kv : SeenKey × SeenEntry) =>
    !(truthyStr kv.2.soldAt &&
      decide (parseTime (kv.2.soldAt.getD "") < cutoff))
  (s.filter keep, (s.filter (fun kv => !keep kv)).length)

/-! ### `src/run.ts`: per-product reconciliation -/

/-- Key under which a match is recorded:
`(m.listing.source, product.id, m.listing.sourceId)`. -/
def keyOf (pid : String) (m : MatchE) : SeenKey :=
  (m.listing.source, pid, m.listing.sourceId)

/-- One step of the de-dupe / price-drop loop of `main` (src/run.ts): a new
listing is fresh as is; an already-seen listing is fresh only on a strict
price drop, annotated with the previous price and the drop amount. -/
def freshOf (s : SeenMap) (pid : String) (m : MatchE) : Option MatchE :=
  match seenLookup s (keyOf pid m) with
  | none => some m
  | some ex =>
    if m.effectivePriceUsd < ex.lastEffectivePrice then
      let pd : PriceDropInfo :=
        { previousPrice := ex.lastEffectivePrice,
          dropAmount := ex.lastEffectivePrice - m.effectivePriceUsd }
      some { m with priceDrop := some pd }
    else none

/-- The de-dupe / price-drop loop of `main` over all matches, reading the
state as it was before this product's updates. -/
def dedupeFresh (s : SeenMap) (pid : String) (ms : List MatchE) :
    List MatchE :=
  ms.filterMap (freshOf s pid)

/-- The entry written by the state-update loop of `main` for one match:
fields reset from the current match, `missedRuns` reset to 0, no `soldAt`;
`firstSeenAt` preserved from a truthy existing value. -/
def seenEntryFor (runAt : String) (s : SeenMap) (pid : String) (m : MatchE) :
    SeenEntry :=
  let base : SeenEntry :=
    { firstSeenAt := runAt, lastSeenAt := runAt,
      lastEffectivePrice := m.effectivePriceUsd,
      url := m.listing.url, title := m.listing.title,
      missedRuns := some 0, soldAt := none }
  match seenLookup s (keyOf pid m) with
  | some ex =>
    if ex.firstSeenAt ≠ "" then { base with firstSeenAt := ex.firstSeenAt }
    else base
  | none => base

/-- The state-update loop of `main`: `markSeen` for every match in order. -/
def markSeenFold (runAt : String) (pid : String) (s : SeenMap)
    (ms : List MatchE) : SeenMap :=
  ms.foldl (fun st m => seenInsert st (keyOf pid m) (seenEntryFor runAt st pid m)) s

/-- Membership of a listing id in `seenThisRunByMarket[mk]`, the set of
source ids observed in this run's raw listings for marketplace `mk`. -/
def observedIn (raw : List Listing) (mk : MarketplaceId) (id : String) : Bool :=
  raw.any (fun l => decide (l.source = mk ∧ l.sourceId = id))

/-- The body of the sold-tracking loop for one missed entry: increment
`missedRuns` (absent counts as 0) and stamp `soldAt` with the run timestamp
once the counter reaches the threshold 3. -/
def bumpEntry (runAt : String) (e : SeenEntry) : SeenEntry :=
  let n := e.missedRuns.getD 0 + 1
  { e with missedRuns := some n,
           soldAt := if 3 ≤ n then some runAt else e.soldAt }

/-- Per-entry effect of the sold-tracking loop pass for marketplace `mk`:
entries of this marketplace and product that are not already sold and were
not observed this run are bumped; every other entry is untouched. -/
def soldStepEntry (runAt : String) (raw : List Listing) (mk : MarketplaceId)
    (pid : String) (k : SeenKey) (e : SeenEntry) : SeenEntry :=
  if k.1 = mk ∧ k.2.1 = pid ∧ truthyStr e.soldAt = false ∧
      observedIn raw mk k.2.2 = false then
    bumpEntry runAt e
  else e

/-- One marketplace pass of the sold-tracking loop of `main`. -/
def soldSweepMarket (runAt : String) (raw : List Listing) (pid : String)
    (s : SeenMap) (mk : MarketplaceId) : SeenMap :=
  s.map (fun kv => (kv.1, soldStepEntry runAt raw mk pid kv.1 kv.2))

/-- The sold-tracking loop of `main` over the product marketplaces. -/
def soldSweep (runAt : String) (raw : List Listing) (pid : String)
    (markets : List MarketplaceId) (s : SeenMap) : SeenMap :=
  markets.foldl (soldSweepMarket runAt raw pid) s

/-! ### `src/run.ts`: `calculateMarketStats` -/

/-- Sample record embedded in `MarketStats` (`src/types.ts`). -/
structure SampleE where
  title : String
  price : Rat
  url : String
  source : MarketplaceId
  listedAt : Option String := none
deriving DecidableEq

/-- Market statistics record from `src/types.ts`. -/
structure MarketStats where
  count : Nat
  minPrice : Option Rat
  maxPrice : Option Rat
  avgPrice : Option Rat
  medianPrice : Option Rat
  samples : List SampleE
deriving DecidableEq

/-- The empty statistics value returned for empty inputs. -/
def emptyStats : MarketStats :=
  { count := 0, minPrice := none, maxPrice := none, avgPrice := none,
    medianPrice := none, samples := [] }

/-- Listing paired with its effective price, the element type of the sorted
`priced` array in `calculateMarketStats`. -/
abbrev PricedListing := Listing × Rat

/-- Ascending order on priced listings (`(a, b) => a.price - b.price`). -/
def pricedLe (a b : PricedListing) : Prop := a.2 ≤ b.2

instance : DecidableRel pricedLe := fun a b =>
  inferInstanceAs (Decidable (a.2 ≤ b.2))

instance : IsTotal PricedListing pricedLe := ⟨fun a b => le_total a.2 b.2⟩

instance : IsTrans PricedListing pricedLe := ⟨fun _ _ _ h h' => le_trans h h'⟩

/-- The rounding `Math.round(x * 100) / 100` used for display stability:
round half-up to two decimal places. -/
def round2c (q : Rat) : Rat := ((⌊q * 100 + 1 / 2⌋ : Int) : Rat) / 100

/-- The `addSample` helper of `calculateMarketStats`: push the listing at a
valid index unless its URL is already sampled. -/
def addSample (priced : List PricedListing) (samples : List SampleE)
    (idx : Nat) : List SampleE :=
  if h : idx < priced.length then
    let p := priced.get ⟨idx, h⟩
    if samples.any (fun sm => decide (sm.url = p.1.url)) then samples
    else samples ++
      [{ title := p.1.title, price := p.2, url := p.1.url,
         source := p.1.source, listedAt := p.1.listedAt }]
  else samples

/-- The five fixed sample rank positions of `calculateMarketStats`
(`Math.floor` of n times 0, 0.25, 0.5, 0.75, and the last index). -/
def sampleIdxs (n : Nat) : List Nat := [0, n / 4, n / 2, 3 * n / 4, n - 1]

/-- Body of `calculateMarketStats` for a nonempty sorted `priced` array:
prices, sum, average, median (even/odd midpoint on the sorted array),
min and max at the ends of the sorted array, rounded average and median,
and the five percentile samples. -/
def statsOf (priced : List PricedListing) : MarketStats :=
  let prices := priced.map (fun p => p.2)
  let bigSum := prices.foldl (fun a b => a + b) 0
  let avg := bigSum / (prices.length : Rat)
  let mid := prices.length / 2
  let median :=
    if prices.length % 2 = 0 then
      (prices.getD (mid - 1) 0 + prices.getD mid 0) / 2
    else prices.getD mid 0
  { count := priced.length,
    minPrice := some (prices.getD 0 0),
    maxPrice := some (prices.getD (prices.length - 1) 0),
    avgPrice := some (round2c avg),
    medianPrice := some (round2c median),
    samples := (sampleIdxs priced.length).foldl (addSample priced) [] }

/-- The `calculateMarketStats` function of `src/run.ts`: filter to USD,
pair each listing with its effective price, sort ascending, and compute the
statistics; empty inputs yield the null statistics object. -/
def calculateMarketStats (listings : List Listing) (cfg : WatchlistConfig) :
    MarketStats :=
  if listings.length = 0 then emptyStats
  else if (List.insertionSort pricedLe
      ((listings.filter (fun l => decide (upperStr l.price.currency = "USD"))).map
        (fun l => (l, (computeEffectivePriceUsd l cfg).effective)))).length = 0
  then emptyStats
  else statsOf (List.insertionSort pricedLe
      ((listings.filter (fun l => decide (upperStr l.price.currency = "USD"))).map
        (fun l => (l, (computeEffectivePriceUsd l cfg).effective))))

/-! ### `src/run.ts`: orchestration of `main` -/

/-- Per-product result bundle pushed onto `byProduct` (`src/types.ts`,
`RunRecord.byProduct`). -/
structure BundleE where
  productId : String
  productName : String
  thresholdUsd : Rat
  scanned : Nat
  matchList : List MatchE
  marketStats : MarketStats
deriving DecidableEq

/-- Result of processing one product inside the loop of `main`: the updated
seen store, the fresh (alertable) matches, all matches, and the bundle. -/
structure ProcOut where
  state : SeenMap
  fresh : List MatchE
  matchList : List MatchE
  bundle : BundleE
deriving DecidableEq

/-- One iteration of the product loop of `main` (src/run.ts), with the raw
listings already gathered from the marketplace adapters: filter and sort
matches, compute the fresh batch against the prior state, run the
state-update loop, run the sold-tracking loop, and build the run-summary
bundle (matches capped by `slice(0, 50)`, market statistics over the
title-filtered raw listings). -/
def processProduct (rx : String → String → Bool) (cfg : WatchlistConfig)
    (runAt : String) (p : ProductConfig) (raw : List Listing) (s : SeenMap) :
    ProcOut :=
  let matchesFound := filterMatches rx p raw cfg
  let fresh := dedupeFresh s p.id matchesFound
  let s1 := markSeenFold runAt p.id s matchesFound
  let s2 := soldSweep runAt raw p.id p.marketplaces s1
  { state := s2, fresh := fresh, matchList := matchesFound,
    bundle :=
      { productId := p.id, productName := p.name,
        thresholdUsd := p.maxPriceUsd, scanned := raw.length,
        matchList := matchesFound.take 50,
        marketStats :=
          calculateMarketStats (raw.filter (fun l => titlePasses rx p l.title)) cfg } }

/-- Accumulated run totals of `main`. -/
structure AccE where
  scanned : Nat := 0
  matchCount : Nat := 0
  alerts : Nat := 0
  byProduct : List BundleE := []
deriving DecidableEq

/-- Run record appended to the history file (`src/types.ts`, `RunRecord`;
the wall-clock `durationMs` and the adapter `errors` list concern the
out-of-scope collaborators and are not modelled). -/
structure RunRecordE where
  runAt : String
  scanned : Nat
  matchCount : Nat
  alerts : Nat
  byProduct : List BundleE
deriving DecidableEq

/-- State document written by `writeState` (`version` is constant and not
modelled). -/
structure StateE where
  updatedAt : Option String
  seen : SeenMap
deriving DecidableEq

/-- Observable outcome of a run of `main`: the promise result, the list of
`writeState` calls performed, and the list of `appendHistory` calls
performed. -/
structure RunOutcome where
  result : Except String Unit
  stateWrites : List StateE
  historyWrites : List RunRecordE

/-- The product loop of `main`: process each product in turn, then send the
Discord batch for its fresh matches; a notification error rejects the whole
run (the `await` in `main` is not guarded by any try/catch). `notify` is
the external `sendDiscordAlerts` collaborator, returning the number of
alerts sent or an error. -/
def goProducts (rx : String → String → Bool) (cfg : WatchlistConfig)
    (notify : List MatchE → Except String Nat) (runAt : String) :
    List (ProductConfig × List Listing) → SeenMap → AccE →
    Except String (SeenMap × AccE)
  | [], s, acc => .ok (s, acc)
  | (p, raw) :: rest, s, acc =>
    match (if 0 < (processProduct rx cfg runAt p raw s).fresh.length
        then notify (processProduct rx cfg runAt p raw s).fresh
        else .ok 0) with
    | .error e => .error e
    | .ok sent =>
      goProducts rx cfg notify runAt rest
        (processProduct rx cfg runAt p raw s).state
        { scanned := acc.scanned + raw.length,
          matchCount := acc.matchCount +
            (processProduct rx cfg runAt p raw s).matchList.length,
          alerts := acc.alerts + sent,
          byProduct := acc.byProduct ++
            [(processProduct rx cfg runAt p raw s).bundle] }

/-- The `main` function of `src/run.ts` with the external collaborators
abstracted: configuration and per-product raw listings as inputs, the
notification channel as `notify`, timestamps as `runAt`/`nowMs`/`parseTime`.
On success the run sweeps expired sold entries, writes the state once and
appends one history record; a rejected notification aborts the run before
any write. -/
def mainRun (rx : String → String → Bool) (cfg : WatchlistConfig)
    (notify : List MatchE → Except String Nat) (runAt : String)
    (nowMs : Int) (parseTime : String → Int)
    (pairs : List (ProductConfig × List Listing)) (s0 : SeenMap) :
    RunOutcome :=
  match goProducts rx cfg notify runAt pairs s0 {} with
  | .error e => { result := .error e, stateWrites := [], historyWrites := [] }
  | .ok (s, acc) =>
    let s1 := (cleanupOldSoldItems parseTime nowMs s).1
    { result := .ok (),
      stateWrites := [{ updatedAt := some runAt, seen := s1 }],
      historyWrites :=
        [{ runAt := runAt, scanned := acc.scanned,
           matchCount := acc.matchCount,
           alerts := acc.alerts, byProduct := acc.byProduct }] }

/-! ### Helper lemmas about the seen-listing store -/

theorem seenLookup_nil (k : SeenKey) : seenLookup [] k = none := rfl

theorem seenLookup_cons (kv : SeenKey × SeenEntry) (s : SeenMap) (k : SeenKey) :
    seenLookup (kv :: s) k = if kv.1 = k then some kv.2 else seenLookup s k := rfl

theorem seenLookup_insert_self (s : SeenMap) (k : SeenKey) (e : SeenEntry) :
    seenLookup (seenInsert s k e) k = some e := by
  induction s with
  | nil => simp [seenInsert, seenLookup_cons]
  | cons kv rest ih =>
    simp only [seenInsert]
    by_cases h : kv.1 = k
    · simp [h, seenLookup_cons]
    · simp [h, seenLookup_cons, ih]

theorem seenLookup_insert_ne (s : SeenMap) (k k' : SeenKey) (e : SeenEntry)
    (h : k' ≠ k) : seenLookup (seenInsert s k e) k' = seenLookup s k' := by
  induction s with
  | nil => simp [seenInsert, seenLookup_cons, seenLookup_nil, Ne.symm h]
  | cons kv rest ih =>
    simp only [seenInsert]
    by_cases hk : kv.1 = k
    · subst hk
      simp [seenLookup_cons, Ne.symm h]
    · simp [hk, seenLookup_cons, ih]

/-! ### Helper lemmas about the state-update loop (`markSeen` over matches) -/

theorem seenEntryFor_missedRuns (runAt : String) (s : SeenMap) (pid : String)
    (m : MatchE) : (seenEntryFor runAt s pid m).missedRuns = some 0 := by
  unfold seenEntryFor
  cases seenLookup s (keyOf pid m) with
  | none => rfl
  | some ex =>
    by_cases h : ex.firstSeenAt ≠ "" <;> simp [h]

theorem seenEntryFor_soldAt (runAt : String) (s : SeenMap) (pid : String)
    (m : MatchE) : (seenEntryFor runAt s pid m).soldAt = none := by
  unfold seenEntryFor
  cases seenLookup s (keyOf pid m) with
  | none => rfl
  | some ex =>
    by_cases h : ex.firstSeenAt ≠ "" <;> simp [h]

theorem markSeenFold_lookup_of_not_mem (runAt pid : String) (s : SeenMap)
    (ms : List MatchE) (k : SeenKey) (h : ∀ m ∈ ms, keyOf pid m ≠ k) :
    seenLookup (markSeenFold runAt pid s ms) k = seenLookup s k := by
  induction ms generalizing s with
  | nil => rfl
  | cons m rest ih =>
    have hm : keyOf pid m ≠ k := h m (List.mem_cons_self m rest)
    have hrest : ∀ m' ∈ rest, keyOf pid m' ≠ k := fun m' hm' =>
      h m' (List.mem_cons_of_mem m hm')
    simp only [markSeenFold, List.foldl_cons]
    rw [show (List.foldl
        (fun st m => seenInsert st (keyOf pid m) (seenEntryFor runAt st pid m))
        (seenInsert s (keyOf pid m) (seenEntryFor runAt s pid m)) rest)
      = markSeenFold runAt pid
          (seenInsert s (keyOf pid m) (seenEntryFor runAt s pid m)) rest from rfl]
    rw [ih _ hrest]
    exact seenLookup_insert_ne _ _ _ _ (Ne.symm hm)

theorem markSeenFold_lookup_of_mem (runAt pid : String) (s : SeenMap)
    (ms : List MatchE) (k : SeenKey) (h : ∃ m ∈ ms, keyOf pid m = k) :
    ∃ e', seenLookup (markSeenFold runAt pid s ms) k = some e' ∧
      e'.missedRuns = some 0 ∧ e'.soldAt = none := by
  induction ms generalizing s with
  | nil => exact absurd h (by simp)
  | cons m rest ih =>
    simp only [markSeenFold, List.foldl_cons]
    rw [show (List.foldl
        (fun st m => seenInsert st (keyOf pid m) (seenEntryFor runAt st pid m))
        (seenInsert s (keyOf pid m) (seenEntryFor runAt s pid m)) rest)
      = markSeenFold runAt pid
          (seenInsert s (keyOf pid m) (seenEntryFor runAt s pid m)) rest from rfl]
    by_cases hrest : ∃ m' ∈ rest, keyOf pid m' = k
    · exact ih _ hrest
    · have hm : keyOf pid m = k := by
        rcases h with ⟨m', hm', hk⟩
        rcases List.mem_cons.mp hm' with h1 | h2
        · subst h1; exact hk
        · exact absurd ⟨m', h2, hk⟩ hrest
      have hne : ∀ m' ∈ rest, keyOf pid m' ≠ k := fun m' hm' =>
        fun hk => hrest ⟨m', hm', hk⟩
      rw [markSeenFold_lookup_of_not_mem _ _ _ _ _ hne, hm,
        seenLookup_insert_self]
      exact ⟨_, rfl, seenEntryFor_missedRuns .., seenEntryFor_soldAt ..⟩

/-! ### Helper lemmas about the sold-tracking loop -/

theorem soldSweepMarket_lookup (runAt : String) (raw : List Listing)
    (pid : String) (s : SeenMap) (mk : MarketplaceId) (k : SeenKey) :
    seenLookup (soldSweepMarket runAt raw pid s mk) k =
      (seenLookup s k).map (soldStepEntry runAt raw mk pid k) := by
  induction s with
  | nil => rfl
  | cons kv rest ih =>
    simp only [soldSweepMarket, List.map_cons]
    rw [seenLookup_cons, seenLookup_cons]
    by_cases h : kv.1 = k
    · subst h; simp
    · simp only [h, if_false]
      exact ih

theorem soldSweep_lookup (runAt : String) (raw : List Listing) (pid : String)
    (mks : List MarketplaceId) (s : SeenMap) (k : SeenKey) :
    seenLookup (soldSweep runAt raw pid mks s) k =
      mks.foldl (fun o mk => o.map (soldStepEntry runAt raw mk pid k))
        (seenLookup s k) := by
  induction mks generalizing s with
  | nil => rfl
  | cons mk rest ih =>
    have hstep : soldSweep runAt raw pid (mk :: rest) s
        = soldSweep runAt raw pid rest (soldSweepMarket runAt raw pid s mk) := rfl
    rw [hstep, ih, soldSweepMarket_lookup]
    rfl

theorem soldStepEntry_ne_market (runAt : String) (raw : List Listing)
    (mk : MarketplaceId) (pid : String) (k : SeenKey) (e : SeenEntry)
    (h : k.1 ≠ mk) : soldStepEntry runAt raw mk pid k e = e := by
  unfold soldStepEntry
  simp [h]

theorem soldStepEntry_sold (runAt : String) (raw : List Listing)
    (mk : MarketplaceId) (pid : String) (k : SeenKey) (e : SeenEntry)
    (h : truthyStr e.soldAt = true) : soldStepEntry runAt raw mk pid k e = e := by
  unfold soldStepEntry
  simp [h]

theorem soldStepEntry_observed (runAt : String) (raw : List Listing)
    (pid : String) (k : SeenKey) (e : SeenEntry)
    (h : observedIn raw k.1 k.2.2 = true) :
    soldStepEntry runAt raw k.1 pid k e = e := by
  unfold soldStepEntry
  simp [h]

theorem soldStepEntry_bump (runAt : String) (raw : List Listing)
    (pid : String) (k : SeenKey) (e : SeenEntry)
    (hpid : k.2.1 = pid) (hsold : truthyStr e.soldAt = false)
    (hobs : observedIn raw k.1 k.2.2 = false) :
    soldStepEntry runAt raw k.1 pid k e = bumpEntry runAt e := by
  unfold soldStepEntry
  simp [hpid, hsold, hobs]

theorem sweepFold_of_ne (runAt : String) (raw : List Listing) (pid : String)
    (mks : List MarketplaceId) (k : SeenKey) (e : SeenEntry)
    (h : ∀ mk ∈ mks, k.1 ≠ mk) :
    mks.foldl (fun o mk => o.map (soldStepEntry runAt raw mk pid k))
      (some e) = some e := by
  induction mks with
  | nil => rfl
  | cons mk rest ih =>
    simp only [List.foldl_cons, Option.map_some']
    rw [soldStepEntry_ne_market _ _ _ _ _ _ (h mk (List.mem_cons_self mk rest))]
    exact ih fun mk' hmk' => h mk' (List.mem_cons_of_mem mk hmk')

theorem sweepFold_of_sold (runAt : String) (raw : List Listing) (pid : String)
    (mks : List MarketplaceId) (k : SeenKey) (e : SeenEntry)
    (h : truthyStr e.soldAt = true) :
    mks.foldl (fun o mk => o.map (soldStepEntry runAt raw mk pid k))
      (some e) = some e := by
  induction mks with
  | nil => rfl
  | cons mk rest ih =>
    simp only [List.foldl_cons, Option.map_some']
    rw [soldStepEntry_sold _ _ _ _ _ _ h]
    exact ih

theorem sweepFold_of_observed (runAt : String) (raw : List Listing)
    (pid : String) (mks : List MarketplaceId) (k : SeenKey) (e : SeenEntry)
    (h : observedIn raw k.1 k.2.2 = true) :
    mks.foldl (fun o mk => o.map (soldStepEntry runAt raw mk pid k))
      (some e) = some e := by
  induction mks with
  | nil => rfl
  | cons mk rest ih =>
    simp only [List.foldl_cons, Option.map_some']
    by_cases hmk : k.1 = mk
    · rw [← hmk, soldStepEntry_observed _ _ _ _ _ h]
      exact ih
    · rw [soldStepEntry_ne_market _ _ _ _ _ _ hmk]
      exact ih

theorem sweepFold_bump (runAt : String) (raw : List Listing) (pid : String)
    (mks : List MarketplaceId) (k : SeenKey) (e : SeenEntry)
    (hmem : k.1 ∈ mks) (hnd : mks.Nodup) (hpid : k.2.1 = pid)
    (hsold : truthyStr e.soldAt = false)
    (hobs : observedIn raw k.1 k.2.2 = false) :
    mks.foldl (fun o mk => o.map (soldStepEntry runAt raw mk pid k))
      (some e) = some (bumpEntry runAt e) := by
  rcases List.mem_iff_append.mp hmem with ⟨l1, l2, rfl⟩
  have hnd' := List.nodup_append.mp hnd
  have h1 : ∀ mk ∈ l1, k.1 ≠ mk := by
    intro mk hmk heq
    exact hnd'.2.2 (heq ▸ hmk) (List.mem_cons_self _ _)
  have hk1 : k.1 ∉ l2 := (List.nodup_cons.mp hnd'.2.1).1
  have h2 : ∀ mk ∈ l2, k.1 ≠ mk := by
    intro mk hmk heq
    exact hk1 (heq ▸ hmk)
  rw [List.foldl_append, sweepFold_of_ne _ _ _ _ _ _ h1]
  simp only [List.foldl_cons, Option.map_some']
  rw [soldStepEntry_bump _ _ _ _ _ hpid hsold hobs]
  exact sweepFold_of_ne _ _ _ _ _ _ h2

/-! ### Helper lemmas about `filterMatches` -/

/-- The match built from a surviving listing in the `filterMatches` loop. -/
def matchFor (product : ProductConfig) (cfg : WatchlistConfig) (l : Listing) :
    MatchE :=
  { productId := product.id, productName := product.name,
    maxPriceUsd := product.maxPriceUsd, listing := l,
    effectivePriceUsd := (computeEffectivePriceUsd l cfg).effective,
    shippingNote := (computeEffectivePriceUsd l cfg).shippingNote }

theorem listingMatchOf_eq_some_iff (rx : String → String → Bool)
    (product : ProductConfig) (cfg : WatchlistConfig) (l : Listing)
    (m : MatchE) :
    listingMatchOf rx product cfg l = some m ↔
      (titlePasses rx product l.title = true ∧
       normE l.price.currency = "usd" ∧
       (∀ minP, product.minPriceUsd = some minP →
         minP ≤ (computeEffectivePriceUsd l cfg).effective) ∧
       (computeEffectivePriceUsd l cfg).effective ≤ product.maxPriceUsd ∧
       m = matchFor product cfg l) := by
  by_cases h1 : titlePasses rx product l.title
  · by_cases h2 : normE l.price.currency = "usd"
    · cases hmin : product.minPriceUsd with
      | none =>
        by_cases h4 : (computeEffectivePriceUsd l cfg).effective ≤
            product.maxPriceUsd
        · have hval : listingMatchOf rx product cfg l =
              some (matchFor product cfg l) := by
            unfold listingMatchOf matchFor
            rw [if_neg (not_not.mpr h1), if_neg (fun hne => hne h2), hmin,
              if_neg (by simp), if_pos h4]
          rw [hval]
          constructor
          · intro he
            injection he with he'
            exact ⟨h1, h2, by simp [hmin], h4, he'.symm⟩
          · rintro ⟨-, -, -, -, rfl⟩
            rfl
        · have hval : listingMatchOf rx product cfg l = none := by
            unfold listingMatchOf
            rw [if_neg (not_not.mpr h1), if_neg (fun hne => hne h2), hmin,
              if_neg (by simp), if_neg h4]
          rw [hval]
          refine iff_of_false (by simp) ?_
          rintro ⟨-, -, -, hmax, -⟩
          exact h4 hmax
      | some minP =>
        by_cases h3 : (computeEffectivePriceUsd l cfg).effective < minP
        · have hval : listingMatchOf rx product cfg l = none := by
            unfold listingMatchOf
            rw [if_neg (not_not.mpr h1), if_neg (fun hne => hne h2), hmin,
              if_pos (decide_eq_true h3)]
          rw [hval]
          refine iff_of_false (by simp) ?_
          rintro ⟨-, -, hall, -, -⟩
          exact absurd (hall minP rfl) (not_le.mpr h3)
        · have hminall : ∀ mp, some minP = some mp →
              mp ≤ (computeEffectivePriceUsd l cfg).effective := by
            intro mp hmp
            injection hmp with hmp'
            subst hmp'
            exact not_lt.mp h3
          by_cases h4 : (computeEffectivePriceUsd l cfg).effective ≤
              product.maxPriceUsd
          · have hval : listingMatchOf rx product cfg l =
                some (matchFor product cfg l) := by
              unfold listingMatchOf matchFor
              rw [if_neg (not_not.mpr h1), if_neg (fun hne => hne h2), hmin,
                if_neg (fun hd => h3 (of_decide_eq_true hd)), if_pos h4]
            rw [hval]
            constructor
            · intro he
              injection he with he'
              exact ⟨h1, h2, hminall, h4, he'.symm⟩
            · rintro ⟨-, -, -, -, rfl⟩
              rfl
          · have hval : listingMatchOf rx product cfg l = none := by
              unfold listingMatchOf
              rw [if_neg (not_not.mpr h1), if_neg (fun hne => hne h2), hmin,
                if_neg (fun hd => h3 (of_decide_eq_true hd)), if_neg h4]
            rw [hval]
            refine iff_of_false (by simp) ?_
            rintro ⟨-, -, -, hmax, -⟩
            exact h4 hmax
    · have hval : listingMatchOf rx product cfg l = none := by
        unfold listingMatchOf
        rw [if_neg (not_not.mpr h1), if_pos h2]
      rw [hval]
      refine iff_of_false (by simp) ?_
      rintro ⟨-, husd, -⟩
      exact h2 husd
  · have hval : listingMatchOf rx product cfg l = none := by
      unfold listingMatchOf
      rw [if_pos h1]
    rw [hval]
    refine iff_of_false (by simp) ?_
    rintro ⟨htp, -⟩
    exact h1 htp

theorem mem_filterMatches (rx : String → String → Bool)
    (product : ProductConfig) (listings : List Listing)
    (cfg : WatchlistConfig) (m : MatchE) :
    m ∈ filterMatches rx product listings cfg ↔
      ∃ l ∈ listings, listingMatchOf rx product cfg l = some m := by
  unfold filterMatches
  rw [(List.perm_insertionSort matchLe _).mem_iff, List.mem_filterMap]

theorem sorted_filterMatches (rx : String → String → Bool)
    (product : ProductConfig) (listings : List Listing)
    (cfg : WatchlistConfig) :
    (filterMatches rx product listings cfg).Sorted matchLe :=
  List.sorted_insertionSort matchLe _

/-! ### Claim C4: the `filterMatches` contract -/

/-- C4. For every product rule and listing list, `filterMatches` returns a
match for exactly those listings whose title passes the filters, whose
currency normalizes to USD, and whose effective price is at least the rule
minimum (when set) and at most its maximum (strictly above the maximum is
rejected); the returned matches are sorted ascending by effective price. -/
theorem claim_c4_filterMatches (rx : String → String → Bool)
    (product : ProductConfig) (listings : List Listing)
    (cfg : WatchlistConfig) :
    (∀ m, m ∈ filterMatches rx product listings cfg ↔
      ∃ l ∈ listings,
        titlePasses rx product l.title = true ∧
        normE l.price.currency = "usd" ∧
        (∀ minP, product.minPriceUsd = some minP →
          minP ≤ (computeEffectivePriceUsd l cfg).effective) ∧
        (computeEffectivePriceUsd l cfg).effective ≤ product.maxPriceUsd ∧
        m = { productId := product.id, productName := product.name,
              maxPriceUsd := product.maxPriceUsd, listing := l,
              effectivePriceUsd := (computeEffectivePriceUsd l cfg).effective,
              shippingNote := (computeEffectivePriceUsd l cfg).shippingNote,
              priceDrop := none }) ∧
    List.Pairwise
      (fun a b : MatchE => a.effectivePriceUsd ≤ b.effectivePriceUsd)
      (filterMatches rx product listings cfg) := by
  constructor
  · intro m
    rw [mem_filterMatches]
    constructor
    · intro ⟨l, hl, hsome⟩
      exact ⟨l, hl, (listingMatchOf_eq_some_iff rx product cfg l m).mp hsome⟩
    · intro ⟨l, hl, hconds⟩
      exact ⟨l, hl, (listingMatchOf_eq_some_iff rx product cfg l m).mpr hconds⟩
  · exact sorted_filterMatches rx product listings cfg

/-! ### Concrete fixtures used by witnesses and counterexamples -/

/-- Regex engine that rejects everything; adequate for fixtures whose terms
are all literal (no `/.../` pattern), where the engine is never consulted. -/
def rxNone : String → String → Bool := fun _ _ => false

/-- Configuration with shipping included in thresholds. -/
def cfgShip : WatchlistConfig :=
  { settings := { includeShippingInThreshold := true } }

/-- Configuration with shipping not included in thresholds. -/
def cfgNoShip : WatchlistConfig :=
  { settings := { includeShippingInThreshold := false } }

/-- Fixture listing with no shipping record. -/
def lNoShip : Listing :=
  { source := .ebay, sourceId := "w5", url := "u5",
    title := "Roland Synth-8",
    price := { amount := 400, currency := "USD" } }

/-- Fixture product with one include term. -/
def prodSynth : ProductConfig :=
  { id := "w7", name := "W7", maxPriceUsd := 500,
    marketplaces := [.ebay], includeTerms := ["synth"] }

/-- Fixture product with no include or exclude terms. -/
def prodBare : ProductConfig :=
  { id := "c7", name := "C7", maxPriceUsd := 500, marketplaces := [.ebay] }

/-! ### Claim C5: effective price under unknown shipping -/

/-- C5 (amended). For every listing whose shipping is absent or marked not
known, the effective price equals the listed amount; when the configuration
includes shipping in thresholds the result carries the nonempty caveat
string containing "unknown", and when it does not, no caveat is attached. -/
theorem claim_c5_unknown_shipping (l : Listing) (cfg : WatchlistConfig)
    (h : l.shipping = none ∨ ∃ mo, l.shipping = some mo ∧ mo.known = some false) :
    (computeEffectivePriceUsd l cfg).effective = l.price.amount ∧
    (cfg.settings.includeShippingInThreshold = true →
      ∃ note, (computeEffectivePriceUsd l cfg).shippingNote = some note ∧
        note ≠ "" ∧ containsStr note "unknown" = true) ∧
    (cfg.settings.includeShippingInThreshold = false →
      (computeEffectivePriceUsd l cfg).shippingNote = none) := by
  cases hs : cfg.settings.includeShippingInThreshold with
  | false =>
    unfold computeEffectivePriceUsd
    rw [hs]
    exact ⟨rfl, fun hc => absurd hc (by simp), fun _ => rfl⟩
  | true =>
    have hk : ¬((l.shipping.bind Money.known ≠ some false) ∧
        (l.shipping.map Money.amount).isSome) := by
      rcases h with h0 | ⟨mo, hmo, hkn⟩
      · rw [h0]
        rintro ⟨-, hsome⟩
        simp at hsome
      · rw [hmo]
        rintro ⟨hne, -⟩
        exact hne (by simp [hkn])
    unfold computeEffectivePriceUsd
    rw [hs]
    simp only [Bool.not_true, Bool.false_eq_true, if_false]
    rw [if_pos hk]
    refine ⟨rfl, fun _ => ⟨"Shipping unknown (verify on listing)", rfl,
      by decide, by decide⟩, fun hc => by cases hc⟩

/-- C5 witness: a listing with no shipping record and shipping counted in
thresholds gets the listed price and the "unknown" caveat. -/
theorem claim_c5_unknown_shipping_witness :
    lNoShip.shipping = none ∧
    ((computeEffectivePriceUsd lNoShip cfgShip).effective
        = lNoShip.price.amount ∧
     (cfgShip.settings.includeShippingInThreshold = true →
       ∃ note, (computeEffectivePriceUsd lNoShip cfgShip).shippingNote
          = some note ∧ note ≠ "" ∧ containsStr note "unknown" = true) ∧
     (cfgShip.settings.includeShippingInThreshold = false →
       (computeEffectivePriceUsd lNoShip cfgShip).shippingNote = none)) :=
  ⟨rfl, claim_c5_unknown_shipping lNoShip cfgShip (Or.inl rfl)⟩

/-- C5 counterexample: with `includeShippingInThreshold = false`, a listing
with absent shipping gets NO caveat at all, refuting the claim that the
result always carries a caveat for every shipping-policy configuration. -/
theorem claim_c5_counterexample :
    lNoShip.shipping = none ∧
    (computeEffectivePriceUsd lNoShip cfgNoShip).shippingNote = none :=
  ⟨rfl, rfl⟩

/-! ### Claim C7: the accessory-word heuristic -/

/-- C7 (amended). For every title that satisfies the include terms and none
of the exclude terms, `titlePasses` returns false exactly when the
normalized title contains one of the six accessory words case, cover, deck,
decksaver, overlay, template and does not contain the brand token
"roland". -/
theorem claim_c7_accessory_heuristic (rx : String → String → Bool)
    (product : ProductConfig) (title : String)
    (hinc : product.includeTerms.filter (fun s => s ≠ "") = [] ∨
      (product.includeTerms.filter (fun s => s ≠ "")).any
        (fun term => matchesTerm rx (normE title) term) = true)
    (hexc : ((dedupFirst (product.excludeTerms ++ DEFAULT_EXCLUDES)).filter
        (fun s => s ≠ "")).any
        (fun term => term ≠ "" && matchesTerm rx (normE title) term) = false) :
    (titlePasses rx product title = false ↔
      (["case", "cover", "deck", "decksaver", "overlay", "template"].any
          (fun w => containsStr (normE title) w) = true ∧
        containsStr (normE title) "roland" = false)) := by
  have hlist : accessoryWords =
      ["case", "cover", "deck", "decksaver", "overlay", "template"] := rfl
  have hinc' : ¬(product.includeTerms.filter (fun s => s ≠ "") ≠ [] ∧
      ¬ (product.includeTerms.filter (fun s => s ≠ "")).any
        (fun term => matchesTerm rx (normE title) term) = true) := by
    rcases hinc with h | h
    · rintro ⟨hne, -⟩
      exact hne h
    · rintro ⟨-, hnot⟩
      exact hnot h
  unfold titlePasses
  rw [if_neg hinc', if_neg (by rw [hexc]; simp)]
  by_cases hacc : (accessoryWords.any (fun w => containsStr (normE title) w) &&
      !containsStr (normE title) "roland") = true
  · rw [if_pos hacc]
    rw [hlist] at hacc
    rw [Bool.and_eq_true, Bool.not_eq_true'] at hacc
    exact iff_of_true rfl hacc
  · rw [if_neg hacc]
    refine iff_of_false (by simp) ?_
    rintro ⟨hany, hrol⟩
    exact hacc (by rw [hlist, Bool.and_eq_true, Bool.not_eq_true']
                   exact ⟨hany, hrol⟩)

/-- C7 witness: for a product with include term "synth", the title
"synth case" passes include and exclude checks but is rejected by the
accessory heuristic ("case" present, "roland" absent). -/
theorem claim_c7_accessory_heuristic_witness :
    titlePasses rxNone prodSynth "synth case" = false ∧
    containsStr (normE "synth case") "case" = true ∧
    containsStr (normE "synth case") "roland" = false :=
  ⟨((claim_c7_accessory_heuristic rxNone prodSynth "synth case"
      (Or.inr (by decide)) (by decide)).mpr (by decide)),
    by decide, by decide⟩

/-- C7 counterexample: the title "tape deck" contains none of the five
words named by the claim (case, cover, decksaver, overlay, template), and
for a product with no include or exclude terms it satisfies the include and
exclude checks, yet `titlePasses` rejects it — the heuristic also fires on
the bare word "deck". -/
theorem claim_c7_counterexample :
    (["case", "cover", "decksaver", "overlay", "template"].all
      (fun w => !containsStr (normE "tape deck") w) = true) ∧
    (prodBare.includeTerms.filter (fun s => s ≠ "") = []) ∧
    (((dedupFirst (prodBare.excludeTerms ++ DEFAULT_EXCLUDES)).filter
        (fun s => s ≠ "")).any
        (fun term => term ≠ "" && matchesTerm rxNone (normE "tape deck") term)
      = false) ∧
    titlePasses rxNone prodBare "tape deck" = false := by
  refine ⟨by decide, by decide, by decide, by decide⟩

/-! ### Claim C3: the price-drop transition -/

/-- Fixture listing reappearing at 320 USD. -/
def lDrop : Listing :=
  { source := .ebay, sourceId := "L1", url := "u1", title := "Roland Synth-8",
    price := { amount := 320, currency := "USD" } }

/-- Fixture match at effective price 320. -/
def m320 : MatchE :=
  { productId := "p1", productName := "P1", maxPriceUsd := 500,
    listing := lDrop, effectivePriceUsd := 320 }

/-- Fixture lifecycle entry last seen at effective price 400. -/
def e400 : SeenEntry :=
  { firstSeenAt := "T0", lastSeenAt := "T0", lastEffectivePrice := 400,
    url := "u1", title := "Roland Synth-8", missedRuns := some 0 }

/-- Fixture state holding `e400` under `(ebay, p1, L1)`. -/
def stDrop : SeenMap := [((MarketplaceId.ebay, "p1", "L1"), e400)]

/-- C3. For every existing lifecycle entry reconciled against a new match,
the de-dupe loop emits the match again exactly when the new effective price
is strictly below the stored price, and then the price-drop marking carries
previousPrice equal to the stored price and dropAmount equal to their
difference; such a re-emitted match is part of the alert batch
(`dedupeFresh`), and a non-dropping already-seen match is never
re-emitted. -/
theorem claim_c3_price_drop (s : SeenMap) (pid : String) (m : MatchE)
    (ex : SeenEntry) (h : seenLookup s (keyOf pid m) = some ex) :
    ((∃ m', freshOf s pid m = some m') ↔
      m.effectivePriceUsd < ex.lastEffectivePrice) ∧
    (∀ m', freshOf s pid m = some m' →
      m' = { m with priceDrop := some { previousPrice := ex.lastEffectivePrice, dropAmount := ex.lastEffectivePrice - m.effectivePriceUsd } }) ∧
    (∀ ms, m ∈ ms → ∀ m', freshOf s pid m = some m' →
      m' ∈ dedupeFresh s pid ms) := by
  have hfresh : freshOf s pid m =
      if m.effectivePriceUsd < ex.lastEffectivePrice then
        some { m with priceDrop := some { previousPrice := ex.lastEffectivePrice, dropAmount := ex.lastEffectivePrice - m.effectivePriceUsd } }
      else none := by
    unfold freshOf
    rw [h]
  refine ⟨?_, ?_, ?_⟩
  · constructor
    · rintro ⟨m', hm'⟩
      by_contra hlt
      rw [hfresh, if_neg hlt] at hm'
      cases hm'
    · intro hlt
      exact ⟨_, by rw [hfresh, if_pos hlt]⟩
  · intro m' hm'
    by_cases hlt : m.effectivePriceUsd < ex.lastEffectivePrice
    · rw [hfresh, if_pos hlt] at hm'
      injection hm' with hm''
      exact hm''.symm
    · rw [hfresh, if_neg hlt] at hm'
      cases hm'
  · intro ms hmem m' hm'
    exact List.mem_filterMap.mpr ⟨m, hmem, hm'⟩

set_option maxRecDepth 8000 in
/-- C3 witness: an entry stored at 400 reconciled against a match at 320
yields the price-drop transition with previousPrice 400, dropAmount 80,
and the annotated match joins the alert batch. -/
theorem claim_c3_price_drop_witness :
    (seenLookup stDrop (keyOf "p1" m320) = some e400 ∧
     ((∃ m', freshOf stDrop "p1" m320 = some m') ↔
       m320.effectivePriceUsd < e400.lastEffectivePrice) ∧
     (∀ m', freshOf stDrop "p1" m320 = some m' →
       m' = { m320 with priceDrop := some { previousPrice := e400.lastEffectivePrice, dropAmount := e400.lastEffectivePrice - m320.effectivePriceUsd } }) ∧
     (∀ ms, m320 ∈ ms → ∀ m', freshOf stDrop "p1" m320 = some m' →
       m' ∈ dedupeFresh stDrop "p1" ms)) ∧
    freshOf stDrop "p1" m320 =
      some { m320 with priceDrop := some { previousPrice := 400, dropAmount := 80 } } :=
  ⟨⟨by decide, claim_c3_price_drop stDrop "p1" m320 e400 (by decide)⟩,
    by with_unfolding_all decide⟩

/-! ### Lookup helpers for the per-product reconciliation -/

theorem listing_mem_of_mem_filterMatches (rx : String → String → Bool)
    (product : ProductConfig) (listings : List Listing)
    (cfg : WatchlistConfig) (m : MatchE)
    (h : m ∈ filterMatches rx product listings cfg) : m.listing ∈ listings := by
  rcases (mem_filterMatches rx product listings cfg m).mp h with ⟨l, hl, hsome⟩
  rcases (listingMatchOf_eq_some_iff rx product cfg l m).mp hsome with
    ⟨-, -, -, -, rfl⟩
  exact hl

theorem observedIn_of_matched (rx : String → String → Bool)
    (product : ProductConfig) (raw : List Listing) (cfg : WatchlistConfig)
    (k : SeenKey) (hm : ∃ m ∈ filterMatches rx product raw cfg,
      keyOf product.id m = k) : observedIn raw k.1 k.2.2 = true := by
  rcases hm with ⟨m, hmem, hk⟩
  have hl : m.listing ∈ raw :=
    listing_mem_of_mem_filterMatches rx product raw cfg m hmem
  subst hk
  exact List.any_eq_true.mpr ⟨m.listing, hl, decide_eq_true ⟨rfl, rfl⟩⟩

theorem processProduct_state_eq (rx : String → String → Bool)
    (cfg : WatchlistConfig) (runAt : String) (p : ProductConfig)
    (raw : List Listing) (s : SeenMap) :
    (processProduct rx cfg runAt p raw s).state =
      soldSweep runAt raw p.id p.marketplaces
        (markSeenFold runAt p.id s (filterMatches rx p raw cfg)) := rfl

theorem processProduct_lookup_not_matched (rx : String → String → Bool)
    (cfg : WatchlistConfig) (runAt : String) (p : ProductConfig)
    (raw : List Listing) (s : SeenMap) (k : SeenKey)
    (hm : ∀ m ∈ filterMatches rx p raw cfg, keyOf p.id m ≠ k) :
    seenLookup (processProduct rx cfg runAt p raw s).state k =
      p.marketplaces.foldl
        (fun o mk => o.map (soldStepEntry runAt raw mk p.id k))
        (seenLookup s k) := by
  rw [processProduct_state_eq, soldSweep_lookup,
    markSeenFold_lookup_of_not_mem _ _ _ _ _ hm]

theorem processProduct_lookup_matched (rx : String → String → Bool)
    (cfg : WatchlistConfig) (runAt : String) (p : ProductConfig)
    (raw : List Listing) (s : SeenMap) (k : SeenKey)
    (hm : ∃ m ∈ filterMatches rx p raw cfg, keyOf p.id m = k) :
    ∃ e', seenLookup (processProduct rx cfg runAt p raw s).state k = some e' ∧
      e'.missedRuns = some 0 ∧ e'.soldAt = none := by
  rcases markSeenFold_lookup_of_mem runAt p.id s (filterMatches rx p raw cfg)
    k hm with ⟨e', he', h0, hnone⟩
  refine ⟨e', ?_, h0, hnone⟩
  rw [processProduct_state_eq, soldSweep_lookup, he',
    sweepFold_of_observed _ _ _ _ _ _ (observedIn_of_matched rx p raw cfg k hm)]

theorem processProduct_lookup_absent (rx : String → String → Bool)
    (cfg : WatchlistConfig) (runAt : String) (p : ProductConfig)
    (raw : List Listing) (s : SeenMap) (mk : MarketplaceId) (id : String)
    (e : SeenEntry)
    (hk : seenLookup s (mk, p.id, id) = some e)
    (hsold : truthyStr e.soldAt = false)
    (hobs : observedIn raw mk id = false)
    (hmem : mk ∈ p.marketplaces) (hnd : p.marketplaces.Nodup) :
    seenLookup (processProduct rx cfg runAt p raw s).state (mk, p.id, id) =
      some (bumpEntry runAt e) := by
  have hnm : ∀ m ∈ filterMatches rx p raw cfg, keyOf p.id m ≠ (mk, p.id, id) := by
    intro m hmmem hkey
    have : observedIn raw mk id = true := by
      have := observedIn_of_matched rx p raw cfg (mk, p.id, id) ⟨m, hmmem, hkey⟩
      exact this
    rw [hobs] at this
    cases this
  rw [processProduct_lookup_not_matched rx cfg runAt p raw s _ hnm, hk]
  exact sweepFold_bump runAt raw p.id p.marketplaces (mk, p.id, id) e
    hmem hnd rfl hsold hobs

/-! ### Fixtures for the lifecycle claims -/

/-- Fixture product watching ebay with threshold 500 and no terms. -/
def prodP1 : ProductConfig :=
  { id := "p1", name := "P1", maxPriceUsd := 500, marketplaces := [.ebay] }

/-- Fixture sold entry (three missed runs, sold at "TS"). -/
def eSold : SeenEntry :=
  { firstSeenAt := "T0", lastSeenAt := "T0", lastEffectivePrice := 400,
    url := "u1", title := "Roland Synth-8", missedRuns := some 3,
    soldAt := some "TS" }

/-- Fixture state holding the sold entry under `(ebay, p1, L1)`. -/
def stSold : SeenMap := [((MarketplaceId.ebay, "p1", "L1"), eSold)]

/-- Fixture active entry with no missed runs, tracked as listing B. -/
def eB : SeenEntry :=
  { firstSeenAt := "T0", lastSeenAt := "T0", lastEffectivePrice := 100,
    url := "uB", title := "Roland Synth-8", missedRuns := some 0,
    soldAt := none }

/-- Fixture state holding `eB` under `(ebay, p1, B)`. -/
def stB : SeenMap := [((MarketplaceId.ebay, "p1", "B"), eB)]

/-- Fixture active entry with two missed runs, tracked as listing B. -/
def eB2 : SeenEntry :=
  { firstSeenAt := "T0", lastSeenAt := "T0", lastEffectivePrice := 100,
    url := "uB", title := "Roland Synth-8", missedRuns := some 2,
    soldAt := none }

/-- Fixture state holding `eB2` under `(ebay, p1, B)`. -/
def stB2 : SeenMap := [((MarketplaceId.ebay, "p1", "B"), eB2)]

/-- Fixture raw listing A at 100 USD. -/
def lA : Listing :=
  { source := .ebay, sourceId := "A", url := "uA", title := "Roland Synth-8",
    price := { amount := 100, currency := "USD" } }

/-- Fixture raw listing C at 150 USD. -/
def lC : Listing :=
  { source := .ebay, sourceId := "C", url := "uC", title := "Roland Synth-8",
    price := { amount := 150, currency := "USD" } }

/-- Fixture raw listing B priced 600 USD, above the 500 threshold. -/
def lB600 : Listing :=
  { source := .ebay, sourceId := "B", url := "uB", title := "Roland Synth-8",
    price := { amount := 600, currency := "USD" } }

/-! ### Claim C1: `soldAt` under later sightings -/

/-- C1 (amended). Once `soldAt` is set (to a truthy timestamp), one product
run leaves the entry completely unchanged — the sold-tracking loop skips
sold entries — unless the listing reappears among this run's matches, in
which case the state-update loop overwrites the whole entry with a fresh
unsold one: `soldAt` is cleared, not preserved.  (Deletion by the retention
sweep happens separately at end of run.) -/
theorem claim_c1_sold_entries (rx : String → String → Bool)
    (cfg : WatchlistConfig) (runAt : String) (p : ProductConfig)
    (raw : List Listing) (s : SeenMap) (k : SeenKey) (e : SeenEntry)
    (t : String) (hk : seenLookup s k = some e) (hsold : e.soldAt = some t)
    (ht : t ≠ "") :
    ((∀ m ∈ filterMatches rx p raw cfg, keyOf p.id m ≠ k) →
      seenLookup (processProduct rx cfg runAt p raw s).state k = some e) ∧
    ((∃ m ∈ filterMatches rx p raw cfg, keyOf p.id m = k) →
      ∃ e', seenLookup (processProduct rx cfg runAt p raw s).state k = some e' ∧
        e'.soldAt = none ∧ e'.missedRuns = some 0) := by
  constructor
  · intro hnm
    rw [processProduct_lookup_not_matched rx cfg runAt p raw s k hnm, hk]
    exact sweepFold_of_sold runAt raw p.id p.marketplaces k e
      (by simp [truthyStr, hsold, ht])
  · intro hm
    rcases processProduct_lookup_matched rx cfg runAt p raw s k hm with
      ⟨e', he', h0, hnone⟩
    exact ⟨e', he', hnone, h0⟩

/-- C1 witness: a sold entry whose listing reappears as a match gets an
entry with `soldAt` cleared. -/
theorem claim_c1_sold_entries_witness :
    (seenLookup stSold (.ebay, "p1", "L1") = some eSold ∧
     eSold.soldAt = some "TS" ∧ "TS" ≠ "") ∧
    ((∀ m ∈ filterMatches rxNone prodP1 [lDrop] cfgNoShip,
        keyOf prodP1.id m ≠ (MarketplaceId.ebay, "p1", "L1")) →
      seenLookup (processProduct rxNone cfgNoShip "T1" prodP1 [lDrop]
        stSold).state (.ebay, "p1", "L1") = some eSold) ∧
    ((∃ m ∈ filterMatches rxNone prodP1 [lDrop] cfgNoShip,
        keyOf prodP1.id m = (MarketplaceId.ebay, "p1", "L1")) →
      ∃ e', seenLookup (processProduct rxNone cfgNoShip "T1" prodP1 [lDrop]
          stSold).state (.ebay, "p1", "L1") = some e' ∧
        e'.soldAt = none ∧ e'.missedRuns = some 0) :=
  ⟨⟨by decide, rfl, by decide⟩,
    claim_c1_sold_entries rxNone cfgNoShip "T1" prodP1 [lDrop] stSold
      (.ebay, "p1", "L1") eSold "TS" (by decide) rfl (by decide)⟩

/-- C1 counterexample: the sold entry for listing L1 (soldAt "TS") is
replaced when L1 reappears as a match at 320: after the run the stored
entry exists with `soldAt = none` — `recordSighting` cleared `soldAt`,
refuting write-once. -/
theorem claim_c1_counterexample :
    seenLookup stSold (.ebay, "p1", "L1") = some eSold ∧
    eSold.soldAt = some "TS" ∧
    ((seenLookup (processProduct rxNone cfgNoShip "T1" prodP1 [lDrop]
        stSold).state (.ebay, "p1", "L1")).map SeenEntry.soldAt)
      = some none := by
  refine ⟨by decide, rfl, by with_unfolding_all decide⟩

/-! ### Claim C6: missed-run bookkeeping after one run -/

/-- C6 (amended). After one product run, a tracked unsold entry for a
marketplace of the product has its `missedRuns` incremented by exactly 1
when its listing id is absent from the observed raw listings; reset to 0
when the listing is among this run's matches; and — contrary to the claim —
an entry observed in the raw listings but NOT matching is left completely
unchanged (its counter is not reset). -/
theorem claim_c6_missed_runs (rx : String → String → Bool)
    (cfg : WatchlistConfig) (runAt : String) (p : ProductConfig)
    (raw : List Listing) (s : SeenMap) (mk : MarketplaceId) (id : String)
    (e : SeenEntry) (hk : seenLookup s (mk, p.id, id) = some e)
    (hsold : e.soldAt = none) (hmem : mk ∈ p.marketplaces)
    (hnd : p.marketplaces.Nodup) :
    (observedIn raw mk id = false →
      seenLookup (processProduct rx cfg runAt p raw s).state (mk, p.id, id) =
        some (bumpEntry runAt e) ∧
      (bumpEntry runAt e).missedRuns = some (e.missedRuns.getD 0 + 1)) ∧
    ((∃ m ∈ filterMatches rx p raw cfg, keyOf p.id m = (mk, p.id, id)) →
      ∃ e', seenLookup (processProduct rx cfg runAt p raw s).state
          (mk, p.id, id) = some e' ∧ e'.missedRuns = some 0) ∧
    (observedIn raw mk id = true →
      (∀ m ∈ filterMatches rx p raw cfg, keyOf p.id m ≠ (mk, p.id, id)) →
      seenLookup (processProduct rx cfg runAt p raw s).state (mk, p.id, id) =
        some e) := by
  refine ⟨?_, ?_, ?_⟩
  · intro hobs
    refine ⟨processProduct_lookup_absent rx cfg runAt p raw s mk id e hk
      (by rw [hsold]; rfl) hobs hmem hnd, ?_⟩
    simp [bumpEntry]
  · intro hm
    rcases processProduct_lookup_matched rx cfg runAt p raw s _ hm with
      ⟨e', he', h0, -⟩
    exact ⟨e', he', h0⟩
  · intro hobs hnm
    rw [processProduct_lookup_not_matched rx cfg runAt p raw s _ hnm, hk]
    exact sweepFold_of_observed runAt raw p.id p.marketplaces _ e hobs

/-- C6 witness: with tracked listing B and raw observations {A, C}, the run
increments the missed counter of B by exactly 1. -/
theorem claim_c6_missed_runs_witness :
    (seenLookup stB (.ebay, "p1", "B") = some eB ∧ eB.soldAt = none ∧
     MarketplaceId.ebay ∈ prodP1.marketplaces ∧ prodP1.marketplaces.Nodup ∧
     observedIn [lA, lC] .ebay "B" = false) ∧
    ((observedIn [lA, lC] .ebay "B" = false →
      seenLookup (processProduct rxNone cfgNoShip "T1" prodP1 [lA, lC]
          stB).state (.ebay, "p1", "B") = some (bumpEntry "T1" eB) ∧
      (bumpEntry "T1" eB).missedRuns = some (eB.missedRuns.getD 0 + 1)) ∧
    ((∃ m ∈ filterMatches rxNone prodP1 [lA, lC] cfgNoShip,
        keyOf prodP1.id m = (MarketplaceId.ebay, "p1", "B")) →
      ∃ e', seenLookup (processProduct rxNone cfgNoShip "T1" prodP1 [lA, lC]
          stB).state (.ebay, "p1", "B") = some e' ∧ e'.missedRuns = some 0) ∧
    (observedIn [lA, lC] .ebay "B" = true →
      (∀ m ∈ filterMatches rxNone prodP1 [lA, lC] cfgNoShip,
        keyOf prodP1.id m ≠ (MarketplaceId.ebay, "p1", "B")) →
      seenLookup (processProduct rxNone cfgNoShip "T1" prodP1 [lA, lC]
          stB).state (.ebay, "p1", "B") = some eB)) :=
  ⟨⟨by decide, rfl, by decide, by decide, by decide⟩,
    claim_c6_missed_runs rxNone cfgNoShip "T1" prodP1 [lA, lC] stB .ebay "B"
      eB (by decide) rfl (by decide) (by decide)⟩

/-- C6 counterexample: listing B is observed in the raw results at 600 USD
(over the 500 threshold, hence not a match); its entry keeps
`missedRuns = 2` — neither incremented nor reset to 0, refuting the claim
that every observed entry is reset to 0. -/
theorem claim_c6_counterexample :
    observedIn [lB600] .ebay "B" = true ∧
    filterMatches rxNone prodP1 [lB600] cfgNoShip = [] ∧
    seenLookup stB2 (.ebay, "p1", "B") = some eB2 ∧
    eB2.missedRuns = some 2 ∧
    ((seenLookup (processProduct rxNone cfgNoShip "T1" prodP1 [lB600]
        stB2).state (.ebay, "p1", "B")).map SeenEntry.missedRuns)
      = some (some 2) := by
  refine ⟨by decide, by with_unfolding_all decide, by decide, rfl,
    by with_unfolding_all decide⟩

/-! ### Claim C2: sold on the third consecutive miss -/

/-- C2. A tracked unsold entry with zero missed runs that is absent from
three consecutive runs is bumped to missedRuns 1 then 2 with `soldAt`
still unset, and on the third miss reaches missedRuns 3 and has `soldAt`
stamped with that third run timestamp — never on the second or earlier. -/
theorem claim_c2_third_miss (rx : String → String → Bool)
    (cfg : WatchlistConfig) (t1 t2 t3 : String) (p : ProductConfig)
    (raw1 raw2 raw3 : List Listing) (s : SeenMap) (mk : MarketplaceId)
    (id : String) (e : SeenEntry)
    (hk : seenLookup s (mk, p.id, id) = some e)
    (h0 : e.missedRuns = some 0) (hsold : e.soldAt = none)
    (ho1 : observedIn raw1 mk id = false)
    (ho2 : observedIn raw2 mk id = false)
    (ho3 : observedIn raw3 mk id = false)
    (hmem : mk ∈ p.marketplaces) (hnd : p.marketplaces.Nodup) :
    (∃ e1, seenLookup (processProduct rx cfg t1 p raw1 s).state
        (mk, p.id, id) = some e1 ∧
      e1.missedRuns = some 1 ∧ e1.soldAt = none) ∧
    (∃ e2, seenLookup (processProduct rx cfg t2 p raw2
        (processProduct rx cfg t1 p raw1 s).state).state (mk, p.id, id)
          = some e2 ∧
      e2.missedRuns = some 2 ∧ e2.soldAt = none) ∧
    (∃ e3, seenLookup (processProduct rx cfg t3 p raw3
        (processProduct rx cfg t2 p raw2
          (processProduct rx cfg t1 p raw1 s).state).state).state
        (mk, p.id, id) = some e3 ∧
      e3.missedRuns = some 3 ∧ e3.soldAt = some t3) := by
  have hs1 := processProduct_lookup_absent rx cfg t1 p raw1 s mk id e hk
    (by rw [hsold]; rfl) ho1 hmem hnd
  have he1m : (bumpEntry t1 e).missedRuns = some 1 := by
    simp [bumpEntry, h0]
  have he1s : (bumpEntry t1 e).soldAt = none := by
    simp [bumpEntry, h0, hsold]
  have hs2 := processProduct_lookup_absent rx cfg t2 p raw2 _ mk id
    (bumpEntry t1 e) hs1 (by rw [he1s]; rfl) ho2 hmem hnd
  have he2m : (bumpEntry t2 (bumpEntry t1 e)).missedRuns = some 2 := by
    simp [bumpEntry, h0]
  have he2s : (bumpEntry t2 (bumpEntry t1 e)).soldAt = none := by
    simp [bumpEntry, h0, hsold]
  have hs3 := processProduct_lookup_absent rx cfg t3 p raw3 _ mk id
    (bumpEntry t2 (bumpEntry t1 e)) hs2 (by rw [he2s]; rfl) ho3 hmem hnd
  have he3m : (bumpEntry t3 (bumpEntry t2 (bumpEntry t1 e))).missedRuns
      = some 3 := by
    simp [bumpEntry, h0]
  have he3s : (bumpEntry t3 (bumpEntry t2 (bumpEntry t1 e))).soldAt
      = some t3 := by
    simp [bumpEntry, h0]
  exact ⟨⟨_, hs1, he1m, he1s⟩, ⟨_, hs2, he2m, he2s⟩, ⟨_, hs3, he3m, he3s⟩⟩

/-- C2 witness: the tracked listing B missed in three consecutive empty
runs reaches missedRuns 3 and soldAt "T3" only on the third run. -/
theorem claim_c2_third_miss_witness :
    (seenLookup stB (.ebay, "p1", "B") = some eB ∧
     eB.missedRuns = some 0 ∧ eB.soldAt = none) ∧
    ((∃ e1, seenLookup (processProduct rxNone cfgNoShip "T1" prodP1 []
        stB).state (.ebay, "p1", "B") = some e1 ∧
      e1.missedRuns = some 1 ∧ e1.soldAt = none) ∧
    (∃ e2, seenLookup (processProduct rxNone cfgNoShip "T2" prodP1 []
        (processProduct rxNone cfgNoShip "T1" prodP1 [] stB).state).state
          (.ebay, "p1", "B") = some e2 ∧
      e2.missedRuns = some 2 ∧ e2.soldAt = none) ∧
    (∃ e3, seenLookup (processProduct rxNone cfgNoShip "T3" prodP1 []
        (processProduct rxNone cfgNoShip "T2" prodP1 []
          (processProduct rxNone cfgNoShip "T1" prodP1 [] stB).state).state).state
        (.ebay, "p1", "B") = some e3 ∧
      e3.missedRuns = some 3 ∧ e3.soldAt = some "T3")) :=
  ⟨⟨by decide, rfl, rfl⟩,
    claim_c2_third_miss rxNone cfgNoShip "T1" "T2" "T3" prodP1 [] [] [] stB
      .ebay "B" eB (by decide) rfl rfl rfl rfl rfl (by decide) (by decide)⟩

/-! ### Claim C9: market statistics -/

/-- Median of a list of rationals written from the specification words: sort
ascending, then apply the standard even/odd midpoint averaging rule.  This
is the comparison definition for the refinement proof of C9; the code-side
median lives inside `statsOf`. -/
def medianSpec (xs : List Rat) : Rat :=
  let sorted := List.insertionSort (fun a b : Rat => a ≤ b) xs
  if xs.length % 2 = 0 then
    (sorted.getD (xs.length / 2 - 1) 0 + sorted.getD (xs.length / 2) 0) / 2
  else sorted.getD (xs.length / 2) 0

theorem medianSpec_def (xs : List Rat) :
    medianSpec xs =
      if xs.length % 2 = 0 then
        ((List.insertionSort (fun a b : Rat => a ≤ b) xs).getD
            (xs.length / 2 - 1) 0 +
          (List.insertionSort (fun a b : Rat => a ≤ b) xs).getD
            (xs.length / 2) 0) / 2
      else (List.insertionSort (fun a b : Rat => a ≤ b) xs).getD
        (xs.length / 2) 0 := rfl

theorem statsOf_count (P : List PricedListing) :
    (statsOf P).count = P.length := rfl

theorem statsOf_minPrice (P : List PricedListing) :
    (statsOf P).minPrice = some ((P.map (fun p => p.2)).getD 0 0) := rfl

theorem statsOf_maxPrice (P : List PricedListing) :
    (statsOf P).maxPrice =
      some ((P.map (fun p => p.2)).getD ((P.map (fun p => p.2)).length - 1) 0)
  := rfl

theorem statsOf_avgPrice (P : List PricedListing) :
    (statsOf P).avgPrice =
      some (round2c ((P.map (fun p => p.2)).foldl (fun a b => a + b) 0 /
        (((P.map (fun p => p.2)).length : Nat) : Rat))) := rfl

theorem statsOf_medianPrice (P : List PricedListing) :
    (statsOf P).medianPrice =
      some (round2c
        (if (P.map (fun p => p.2)).length % 2 = 0 then
          ((P.map (fun p => p.2)).getD ((P.map (fun p => p.2)).length / 2 - 1)
              0 +
            (P.map (fun p => p.2)).getD ((P.map (fun p => p.2)).length / 2) 0)
            / 2
        else (P.map (fun p => p.2)).getD ((P.map (fun p => p.2)).length / 2) 0))
  := rfl

theorem calculateMarketStats_eq_statsOf (cfg : WatchlistConfig)
    (listings : List Listing) (hlen0 : listings.length ≠ 0)
    (hfil : ∀ l ∈ listings, upperStr l.price.currency = "USD") :
    calculateMarketStats listings cfg =
      statsOf (List.insertionSort pricedLe
        (listings.map (fun l => (l, (computeEffectivePriceUsd l cfg).effective)))) := by
  have hfilter : listings.filter
      (fun l => decide (upperStr l.price.currency = "USD")) = listings :=
    List.filter_eq_self.mpr (fun a ha => decide_eq_true (hfil a ha))
  have hPne : (List.insertionSort pricedLe
      (listings.map (fun l => (l, (computeEffectivePriceUsd l cfg).effective)))).length
        ≠ 0 := by
    rw [(List.perm_insertionSort _ _).length_eq, List.length_map]
    exact hlen0
  unfold calculateMarketStats
  rw [hfilter, if_neg hlen0, if_neg hPne]

theorem sortedRat_getD_zero_le (xs : List Rat)
    (hs : List.Sorted (fun a b : Rat => a ≤ b) xs) :
    ∀ x ∈ xs, xs.getD 0 0 ≤ x := by
  cases xs with
  | nil => intro x hx; cases hx
  | cons a rest =>
    intro x hx
    rcases List.mem_cons.mp hx with rfl | hmem
    · exact le_refl _
    · exact (List.sorted_cons.mp hs).1 x hmem

theorem getD_zero_mem (xs : List Rat) (h : xs ≠ []) : xs.getD 0 0 ∈ xs := by
  cases xs with
  | nil => exact absurd rfl h
  | cons a rest => exact List.mem_cons_self a rest

theorem sortedRat_le_getD_last : ∀ (xs : List Rat),
    List.Sorted (fun a b : Rat => a ≤ b) xs →
    ∀ x ∈ xs, x ≤ xs.getD (xs.length - 1) 0 := by
  intro xs
  induction xs with
  | nil => intro _ x hx; cases hx
  | cons a rest ih =>
    intro hs x hx
    cases rest with
    | nil =>
      rcases List.mem_singleton.mp hx with rfl
      exact le_refl _
    | cons b rest2 =>
      have hstep : (a :: b :: rest2).getD ((a :: b :: rest2).length - 1) 0 =
          (b :: rest2).getD ((b :: rest2).length - 1) 0 := by
        simp [List.getD]
      have hs' := (List.sorted_cons.mp hs).2
      rcases List.mem_cons.mp hx with rfl | hmem
      · rw [hstep]
        have hb : x ≤ b :=
          (List.sorted_cons.mp hs).1 b (List.mem_cons_self _ _)
        exact le_trans hb (ih hs' b (List.mem_cons_self _ _))
      · rw [hstep]
        exact ih hs' x hmem

theorem getD_last_mem : ∀ (xs : List Rat), xs ≠ [] →
    xs.getD (xs.length - 1) 0 ∈ xs := by
  intro xs
  induction xs with
  | nil => intro h; exact absurd rfl h
  | cons a rest ih =>
    intro _
    cases rest with
    | nil => exact List.mem_cons_self a []
    | cons b rest2 =>
      have hstep : (a :: b :: rest2).getD ((a :: b :: rest2).length - 1) 0 =
          (b :: rest2).getD ((b :: rest2).length - 1) 0 := by
        simp [List.getD]
      rw [hstep]
      exact List.mem_cons_of_mem a (ih (by simp))

/-- C9 (amended). For every nonempty list of USD listings,
`calculateMarketStats` reports the exact minimum and maximum of the
effective prices, and the arithmetic average and the standard even/odd
midpoint median each rounded half-up to two decimal places
(`Math.round(x * 100) / 100`); the count is the number of listings. -/
theorem claim_c9_market_stats (cfg : WatchlistConfig)
    (listings : List Listing) (hne : listings ≠ [])
    (husd : ∀ l ∈ listings, upperStr l.price.currency = "USD") :
    (calculateMarketStats listings cfg).count = listings.length ∧
    (∃ mn, (calculateMarketStats listings cfg).minPrice = some mn ∧
      mn ∈ listings.map (fun l => (computeEffectivePriceUsd l cfg).effective) ∧
      ∀ x ∈ listings.map (fun l => (computeEffectivePriceUsd l cfg).effective),
        mn ≤ x) ∧
    (∃ mx, (calculateMarketStats listings cfg).maxPrice = some mx ∧
      mx ∈ listings.map (fun l => (computeEffectivePriceUsd l cfg).effective) ∧
      ∀ x ∈ listings.map (fun l => (computeEffectivePriceUsd l cfg).effective),
        x ≤ mx) ∧
    (calculateMarketStats listings cfg).avgPrice =
      some (round2c
        ((listings.map (fun l => (computeEffectivePriceUsd l cfg).effective)).sum /
          (((listings.map (fun l => (computeEffectivePriceUsd l cfg).effective)).length : Nat) : Rat))) ∧
    (calculateMarketStats listings cfg).medianPrice =
      some (round2c (medianSpec
        (listings.map (fun l => (computeEffectivePriceUsd l cfg).effective)))) := by
  have hlen0 : listings.length ≠ 0 := fun h => hne (List.length_eq_zero.mp h)
  have hcalc := calculateMarketStats_eq_statsOf cfg listings hlen0 husd
  have hPperm : (List.insertionSort pricedLe
      (listings.map (fun l => (l, (computeEffectivePriceUsd l cfg).effective)))).Perm
        (listings.map (fun l => (l, (computeEffectivePriceUsd l cfg).effective))) :=
    List.perm_insertionSort _ _
  have hpricesPerm : ((List.insertionSort pricedLe
      (listings.map (fun l => (l, (computeEffectivePriceUsd l cfg).effective)))).map
        (fun p => p.2)).Perm
      (listings.map (fun l => (computeEffectivePriceUsd l cfg).effective)) := by
    refine (hPperm.map (fun p => p.2)).trans ?_
    rw [List.map_map]
    exact List.Perm.refl _
  have hsortedP : List.Sorted pricedLe (List.insertionSort pricedLe
      (listings.map (fun l => (l, (computeEffectivePriceUsd l cfg).effective)))) :=
    List.sorted_insertionSort _ _
  have hsortedPrices : List.Sorted (fun a b : Rat => a ≤ b)
      ((List.insertionSort pricedLe
        (listings.map (fun l => (l, (computeEffectivePriceUsd l cfg).effective)))).map
          (fun p => p.2)) :=
    List.Pairwise.map _ (fun a b hab => hab) hsortedP
  have heffs_ne : listings.map
      (fun l => (computeEffectivePriceUsd l cfg).effective) ≠ [] := by
    intro h
    exact hne (List.map_eq_nil_iff.mp h)
  have hprices_ne : (List.insertionSort pricedLe
      (listings.map (fun l => (l, (computeEffectivePriceUsd l cfg).effective)))).map
        (fun p => p.2) ≠ [] := by
    intro h
    exact heffs_ne ((h ▸ hpricesPerm).symm.eq_nil)
  refine ⟨?_, ?_, ?_, ?_, ?_⟩
  · rw [hcalc, statsOf_count, (List.perm_insertionSort _ _).length_eq,
      List.length_map]
  · refine ⟨_, by rw [hcalc, statsOf_minPrice], ?_, ?_⟩
    · exact hpricesPerm.mem_iff.mp (getD_zero_mem _ hprices_ne)
    · intro x hx
      exact sortedRat_getD_zero_le _ hsortedPrices x (hpricesPerm.mem_iff.mpr hx)
  · refine ⟨_, by rw [hcalc, statsOf_maxPrice], ?_, ?_⟩
    · exact hpricesPerm.mem_iff.mp (getD_last_mem _ hprices_ne)
    · intro x hx
      exact sortedRat_le_getD_last _ hsortedPrices x (hpricesPerm.mem_iff.mpr hx)
  · rw [hcalc, statsOf_avgPrice, ← List.sum_eq_foldl, hpricesPerm.sum_eq,
      hpricesPerm.length_eq]
  · rw [hcalc, statsOf_medianPrice, medianSpec_def]
    have hEq : (List.insertionSort pricedLe
        (listings.map (fun l => (l, (computeEffectivePriceUsd l cfg).effective)))).map
          (fun p => p.2) =
        List.insertionSort (fun a b : Rat => a ≤ b)
          (listings.map (fun l => (computeEffectivePriceUsd l cfg).effective)) := by
      refine List.eq_of_perm_of_sorted
        (hpricesPerm.trans (List.perm_insertionSort _ _).symm)
        hsortedPrices (List.sorted_insertionSort _ _)
    rw [hEq, (List.perm_insertionSort (fun a b : Rat => a ≤ b) _).length_eq]

/-- Fixture USD listing at 100. -/
def l100 : Listing :=
  { source := .ebay, sourceId := "s100", url := "x100",
    title := "Roland Synth-8",
    price := { amount := 100, currency := "USD" } }

/-- Fixture USD listing at 200. -/
def l200 : Listing :=
  { source := .ebay, sourceId := "s200", url := "x200",
    title := "Roland Synth-8",
    price := { amount := 200, currency := "USD" } }

/-- Fixture USD listing at 300. -/
def l300 : Listing :=
  { source := .ebay, sourceId := "s300", url := "x300",
    title := "Roland Synth-8",
    price := { amount := 300, currency := "USD" } }

/-- Fixture USD listing at 400. -/
def l400 : Listing :=
  { source := .ebay, sourceId := "s400", url := "x400",
    title := "Roland Synth-8",
    price := { amount := 400, currency := "USD" } }

/-- Fixture USD listing at 1. -/
def lq1 : Listing :=
  { source := .ebay, sourceId := "q1", url := "y1",
    title := "Roland Synth-8",
    price := { amount := 1, currency := "USD" } }

/-- Fixture USD listing at 2. -/
def lq2 : Listing :=
  { source := .ebay, sourceId := "q2", url := "y2",
    title := "Roland Synth-8",
    price := { amount := 2, currency := "USD" } }

/-- Fixture USD listing at 2 with a distinct id. -/
def lq2b : Listing :=
  { source := .ebay, sourceId := "q2b", url := "y2b",
    title := "Roland Synth-8",
    price := { amount := 2, currency := "USD" } }

set_option maxRecDepth 16000 in
/-- C9 witness: over USD listings priced 100, 200, 300, 400 the statistics
are min 100, max 400, average 250 and median 250, and the general
characterization applies. -/
theorem claim_c9_market_stats_witness :
    ([l100, l200, l300, l400] ≠ ([] : List Listing)) ∧
    (∀ l ∈ [l100, l200, l300, l400], upperStr l.price.currency = "USD") ∧
    (calculateMarketStats [l100, l200, l300, l400] cfgNoShip).minPrice
      = some 100 ∧
    (calculateMarketStats [l100, l200, l300, l400] cfgNoShip).maxPrice
      = some 400 ∧
    (calculateMarketStats [l100, l200, l300, l400] cfgNoShip).avgPrice
      = some 250 ∧
    (calculateMarketStats [l100, l200, l300, l400] cfgNoShip).medianPrice
      = some 250 ∧
    (∃ mn, (calculateMarketStats [l100, l200, l300, l400] cfgNoShip).minPrice
        = some mn ∧
      mn ∈ [l100, l200, l300, l400].map
        (fun l => (computeEffectivePriceUsd l cfgNoShip).effective) ∧
      ∀ x ∈ [l100, l200, l300, l400].map
        (fun l => (computeEffectivePriceUsd l cfgNoShip).effective), mn ≤ x) :=
  ⟨by decide, by decide,
    by with_unfolding_all decide, by with_unfolding_all decide,
    by with_unfolding_all decide, by with_unfolding_all decide,
    (claim_c9_market_stats cfgNoShip [l100, l200, l300, l400]
      (by decide) (by decide)).2.1⟩

set_option maxRecDepth 16000 in
/-- C9 counterexample: over USD listings priced 1, 2, 2 the returned
average is 1.67 (rounded to two decimals), which differs from the
arithmetic average 5/3 — so `computeStats` does not return the arithmetic
average exactly. -/
theorem claim_c9_counterexample :
    (∀ l ∈ [lq1, lq2, lq2b], upperStr l.price.currency = "USD") ∧
    (calculateMarketStats [lq1, lq2, lq2b] cfgNoShip).avgPrice
      = some (167 / 100) ∧
    (167 : Rat) / 100 ≠
      ([lq1, lq2, lq2b].map
          (fun l => (computeEffectivePriceUsd l cfgNoShip).effective)).sum /
        ((([lq1, lq2, lq2b].map
          (fun l => (computeEffectivePriceUsd l cfgNoShip).effective)).length
            : Nat) : Rat) := by
  refine ⟨by decide, ?_, ?_⟩
  · with_unfolding_all decide
  · with_unfolding_all decide

/-! ### Claims C8 and C10: run orchestration -/

theorem goProducts_append (rx : String → String → Bool)
    (cfg : WatchlistConfig) (notify : List MatchE → Except String Nat)
    (runAt : String) (l1 l2 : List (ProductConfig × List Listing))
    (s : SeenMap) (acc : AccE) :
    goProducts rx cfg notify runAt (l1 ++ l2) s acc =
      (match goProducts rx cfg notify runAt l1 s acc with
       | .ok (s', acc') => goProducts rx cfg notify runAt l2 s' acc'
       | .error e => .error e) := by
  induction l1 generalizing s acc with
  | nil => rfl
  | cons pr rest ih =>
    cases pr with
    | mk p raw =>
      simp only [List.cons_append, goProducts]
      cases hn : (if 0 < (processProduct rx cfg runAt p raw s).fresh.length
          then notify (processProduct rx cfg runAt p raw s).fresh
          else Except.ok 0) with
      | error e => rfl
      | ok sent => exact ih _ _

/-- C8 (amended). When notification delivery fails for some product whose
alert batch is nonempty (every earlier product having been processed
successfully), the error is propagated: the run rejects with that error,
and neither `writeState` nor `appendHistory` is ever performed — the
in-memory lifecycle updates of this run are discarded and the previously
persisted state is left untouched, rather than the updated state being
written at end of run. -/
theorem claim_c8_notify_failure (rx : String → String → Bool)
    (cfg : WatchlistConfig) (notify : List MatchE → Except String Nat)
    (runAt : String) (nowMs : Int) (parseTime : String → Int)
    (ps1 ps2 : List (ProductConfig × List Listing)) (p : ProductConfig)
    (raw : List Listing) (s0 s1 : SeenMap) (acc1 : AccE) (e : String)
    (hpre : goProducts rx cfg notify runAt ps1 s0 {} = .ok (s1, acc1))
    (hfresh : 0 < (processProduct rx cfg runAt p raw s1).fresh.length)
    (hnot : notify (processProduct rx cfg runAt p raw s1).fresh = .error e) :
    mainRun rx cfg notify runAt nowMs parseTime (ps1 ++ (p, raw) :: ps2) s0 =
      { result := .error e, stateWrites := [], historyWrites := [] } := by
  have hgo : goProducts rx cfg notify runAt ((p, raw) :: ps2) s1 acc1 =
      .error e := by
    simp only [goProducts]
    rw [if_pos hfresh, hnot]
  have hgoTotal : goProducts rx cfg notify runAt (ps1 ++ (p, raw) :: ps2) s0 {}
      = .error e := by
    rw [goProducts_append, hpre]
    exact hgo
  unfold mainRun
  rw [hgoTotal]

/-- Notification collaborator that always fails. -/
def notifyFail : List MatchE → Except String Nat := fun _ => .error "boom"

/-- Notification collaborator that always reports one alert sent. -/
def notifyOk : List MatchE → Except String Nat := fun _ => .ok 1

/-- C8 witness: a single product with one fresh match and a failing webhook
aborts the run with the error and performs no state or history write. -/
theorem claim_c8_notify_failure_witness :
    goProducts rxNone cfgNoShip notifyFail "T1" [] [] {} = .ok ([], {}) ∧
    0 < (processProduct rxNone cfgNoShip "T1" prodP1 [l100] []).fresh.length ∧
    notifyFail (processProduct rxNone cfgNoShip "T1" prodP1 [l100] []).fresh
      = .error "boom" ∧
    mainRun rxNone cfgNoShip notifyFail "T1" 0 (fun _ => 0)
      [(prodP1, [l100])] [] =
      { result := .error "boom", stateWrites := [], historyWrites := [] } :=
  ⟨rfl, by with_unfolding_all decide, rfl,
    claim_c8_notify_failure rxNone cfgNoShip notifyFail "T1" 0 (fun _ => 0)
      [] [] prodP1 [l100] [] [] {} "boom" rfl
      (by with_unfolding_all decide) rfl⟩

/-- C8 counterexample: in the same failing-webhook run, the list of
`writeState` calls is empty — the updated lifecycle state is NOT written at
the end of the run, refuting the claim that state is written regardless of
the notification outcome. -/
theorem claim_c8_counterexample :
    (mainRun rxNone cfgNoShip notifyFail "T1" 0 (fun _ => 0)
      [(prodP1, [l100])] []).result = .error "boom" ∧
    (mainRun rxNone cfgNoShip notifyFail "T1" 0 (fun _ => 0)
      [(prodP1, [l100])] []).stateWrites = [] ∧
    (mainRun rxNone cfgNoShip notifyFail "T1" 0 (fun _ => 0)
      [(prodP1, [l100])] []).historyWrites = [] := by
  refine ⟨?_, ?_, ?_⟩ <;> with_unfolding_all rfl

/-- Bundle pushed for one product, as a function of the product and its raw
listings alone (it does not depend on the threaded state). -/
def bundleOf (rx : String → String → Bool) (cfg : WatchlistConfig)
    (pr : ProductConfig × List Listing) : BundleE :=
  { productId := pr.1.id, productName := pr.1.name,
    thresholdUsd := pr.1.maxPriceUsd, scanned := pr.2.length,
    matchList := (filterMatches rx pr.1 pr.2 cfg).take 50,
    marketStats := calculateMarketStats
      (pr.2.filter (fun l => titlePasses rx pr.1 l.title)) cfg }

theorem processProduct_bundle (rx : String → String → Bool)
    (cfg : WatchlistConfig) (runAt : String) (p : ProductConfig)
    (raw : List Listing) (s : SeenMap) :
    (processProduct rx cfg runAt p raw s).bundle = bundleOf rx cfg (p, raw)
  := rfl

theorem goProducts_ok_spec (rx : String → String → Bool)
    (cfg : WatchlistConfig) (notify : List MatchE → Except String Nat)
    (runAt : String) :
    ∀ (pairs : List (ProductConfig × List Listing)) (s : SeenMap) (acc : AccE)
      (s' : SeenMap) (acc' : AccE),
    goProducts rx cfg notify runAt pairs s acc = .ok (s', acc') →
    acc'.byProduct = acc.byProduct ++ pairs.map (bundleOf rx cfg) ∧
    acc'.matchCount = acc.matchCount +
      (pairs.map (fun pr => (filterMatches rx pr.1 pr.2 cfg).length)).sum := by
  intro pairs
  induction pairs with
  | nil =>
    intro s acc s' acc' h
    injection h with h'
    injection h' with h1 h2
    subst h2
    simp
  | cons pr rest ih =>
    intro s acc s' acc' h
    cases pr with
    | mk p raw =>
      simp only [goProducts] at h
      cases hn : (if 0 < (processProduct rx cfg runAt p raw s).fresh.length
          then notify (processProduct rx cfg runAt p raw s).fresh
          else Except.ok 0) with
      | error e =>
        rw [hn] at h
        cases h
      | ok sent =>
        rw [hn] at h
        rcases ih _ _ _ _ h with ⟨hby, hcnt⟩
        constructor
        · rw [hby]
          simp only [processProduct_bundle, List.map_cons, List.append_assoc,
            List.cons_append, List.nil_append]
        · rw [hcnt]
          simp only [List.map_cons, List.sum_cons]
          have : (processProduct rx cfg runAt p raw s).matchList.length =
              (filterMatches rx p raw cfg).length := rfl
          rw [this]
          omega

/-- C10. On a successful run, exactly one history record is appended; its
per-product bundles record `matches.slice(0, 50)` — at most 50 matches, and
since `filterMatches` sorts ascending these are the 50 lowest effective
prices (every kept match is at most every dropped one) — while the run
total `matches` still counts all matches of every product. -/
theorem claim_c10_bundle_cap (rx : String → String → Bool)
    (cfg : WatchlistConfig) (notify : List MatchE → Except String Nat)
    (runAt : String) (nowMs : Int) (parseTime : String → Int)
    (pairs : List (ProductConfig × List Listing)) (s0 : SeenMap)
    (hok : (mainRun rx cfg notify runAt nowMs parseTime pairs s0).result
      = .ok ()) :
    ∃ rec, (mainRun rx cfg notify runAt nowMs parseTime pairs
        s0).historyWrites = [rec] ∧
      rec.byProduct.map (fun b => b.matchList) =
        pairs.map (fun pr => (filterMatches rx pr.1 pr.2 cfg).take 50) ∧
      (∀ b ∈ rec.byProduct, b.matchList.length ≤ 50) ∧
      rec.matchCount =
        (pairs.map (fun pr => (filterMatches rx pr.1 pr.2 cfg).length)).sum ∧
      (∀ pr ∈ pairs, ∀ x ∈ (filterMatches rx pr.1 pr.2 cfg).take 50,
        ∀ y ∈ (filterMatches rx pr.1 pr.2 cfg).drop 50,
          x.effectivePriceUsd ≤ y.effectivePriceUsd) := by
  cases hgo : goProducts rx cfg notify runAt pairs s0 {} with
  | error e =>
    unfold mainRun at hok
    rw [hgo] at hok
    cases hok
  | ok pr =>
    cases pr with
    | mk s acc =>
      rcases goProducts_ok_spec rx cfg notify runAt pairs s0 {} s acc hgo with
        ⟨hby, hcnt⟩
      simp only [AccE.byProduct, List.nil_append] at hby
      simp only [AccE.matchCount, Nat.zero_add] at hcnt
      refine ⟨{ runAt := runAt, scanned := acc.scanned,
                matchCount := acc.matchCount, alerts := acc.alerts,
                byProduct := acc.byProduct }, ?_, ?_, ?_, ?_, ?_⟩
      · unfold mainRun
        rw [hgo]
      · rw [hby, List.map_map]
        rfl
      · intro b hb
        rw [hby] at hb
        rcases List.mem_map.mp hb with ⟨prr, -, rfl⟩
        exact List.length_take_le 50 _
      · exact hcnt
      · intro prr hprr x hx y hy
        have hsorted := sorted_filterMatches rx prr.1 prr.2 cfg
        have hsplit := List.pairwise_append.mp
          (show List.Pairwise matchLe
              (List.take 50 (filterMatches rx prr.1 prr.2 cfg) ++
               List.drop 50 (filterMatches rx prr.1 prr.2 cfg)) from by
            rw [List.take_append_drop]
            exact hsorted)
        exact hsplit.2.2 x hx y hy

/-- C10 witness: a run over one product with one cheap listing succeeds and
its single history record satisfies the characterization. -/
theorem claim_c10_bundle_cap_witness :
    (mainRun rxNone cfgNoShip notifyOk "T1" 0 (fun _ => 0)
        [(prodP1, [l100])] []).result = .ok () ∧
    (∃ rec, (mainRun rxNone cfgNoShip notifyOk "T1" 0 (fun _ => 0)
        [(prodP1, [l100])] []).historyWrites = [rec] ∧
      rec.byProduct.map (fun b => b.matchList) =
        [(prodP1, [l100])].map
          (fun pr => (filterMatches rxNone pr.1 pr.2 cfgNoShip).take 50) ∧
      (∀ b ∈ rec.byProduct, b.matchList.length ≤ 50) ∧
      rec.matchCount = ([(prodP1, [l100])].map
        (fun pr => (filterMatches rxNone pr.1 pr.2 cfgNoShip).length)).sum ∧
      (∀ pr ∈ [(prodP1, [l100])],
        ∀ x ∈ (filterMatches rxNone pr.1 pr.2 cfgNoShip).take 50,
        ∀ y ∈ (filterMatches rxNone pr.1 pr.2 cfgNoShip).drop 50,
          x.effectivePriceUsd ≤ y.effectivePriceUsd)) :=
  ⟨by with_unfolding_all rfl,
    claim_c10_bundle_cap rxNone cfgNoShip notifyOk "T1" 0 (fun _ => 0)
      [(prodP1, [l100])] [] (by with_unfolding_all rfl)⟩

end PriceBot
